import Mathlib

set_option maxRecDepth 10000

/-!
Shallow embedding of the CSV ingestion subsystem of money_fest
(`src/money_fest/app/services/csv_parser.py`): the AceMoney and Danske Bank
parsers, the format detector and the AceMoney-format generator.

Modelling conventions:
* bytes are `Fin 256`, text is `List Char`;
* Python `float` values are modelled as exact rationals (`ℚ`); the textual
  `float(...)` conversion is modelled as parsing plain decimal numerals with
  optional sign, fraction and exponent (the `inf`/`nan` spellings and digit
  underscores of Python are outside the model);
* `datetime.strftime('%Y-%m-%d')` is modelled as zero-padded printing, as the
  Python documentation specifies;
* Python exceptions are modelled as `Except` error values carrying the
  exception message.
-/

/-- Bytes of an uploaded file, one value per octet. -/
abbrev Byte := Fin 256

/-- Text, modelled as a list of unicode characters. -/
abbrev Str := List Char

/-- Test for the characters removed by Python `str.strip()` (the unicode
whitespace set), by code point. -/
def pyWs (c : Char) : Bool :=
  let n := c.toNat
  decide ((9 <= n ∧ n <= 13) ∨ (28 <= n ∧ n <= 32) ∨ n = 133 ∨ n = 160 ∨ n = 5760 ∨
    (8192 <= n ∧ n <= 8202) ∨ n = 8232 ∨ n = 8233 ∨ n = 8239 ∨ n = 8287 ∨ n = 12288)

/-- Drop the longest suffix of characters satisfying `p`. -/
def stripEnd (p : Char → Bool) (s : Str) : Str := (s.reverse.dropWhile p).reverse

/-- Drop characters satisfying `p` from both ends (Python `str.strip(chars)`). -/
def stripBoth (p : Char → Bool) (s : Str) : Str := stripEnd p (s.dropWhile p)

/-- Python `str.strip()` with no argument. -/
def pyStrip (s : Str) : Str := stripBoth pyWs s

/-- Python `str.strip('"')`. -/
def stripQuotes (s : Str) : Str := stripBoth (fun c => c = '"') s

/-- Python `str.lower()` restricted to the Latin-1 repertoire that the parser
compares against its ASCII header names; characters outside it are kept. -/
def lowerChar (c : Char) : Char :=
  let n := c.toNat
  if 65 ≤ n ∧ n ≤ 90 then Char.ofNat (n + 32)
  else if (192 ≤ n ∧ n ≤ 222) ∧ n ≠ 215 then Char.ofNat (n + 32)
  else if n = 376 then Char.ofNat 255
  else c

/-- Python `str.lower()` on a whole string. -/
def lowerStr (s : Str) : Str := s.map lowerChar

/-- Python `str.split(sep)` for a one-character separator. -/
def splitOnC (sep : Char) : Str → List Str
  | [] => [[]]
  | c :: cs =>
    if c = sep then [] :: splitOnC sep cs
    else
      match splitOnC sep cs with
      | [] => [[c]]
      | r :: rs => (c :: r) :: rs

/-- The emptiness test `not file_content or len(file_content.strip()) == 0`:
true exactly for the empty buffer and buffers of `bytes.strip()` whitespace. -/
def emptyCheck (bs : List Byte) : Bool :=
  bs.all (fun b => decide (b.val = 9 ∨ b.val = 10 ∨ b.val = 11 ∨ b.val = 12 ∨ b.val = 13 ∨ b.val = 32))

/-- Python `bytes.decode('latin-1')`; it never fails. -/
def latin1Decode (bs : List Byte) : Str := bs.map (fun b => Char.ofNat b.val)

/-- Python `str.encode('latin-1')`: defined for code points below 256. -/
def latin1Encode : Str → Option (List Byte)
  | [] => some []
  | c :: cs =>
    if h : c.toNat < 256 then
      match latin1Encode cs with
      | some bs => some (⟨c.toNat, h⟩ :: bs)
      | none => none
    else none

/-- Build a byte from a computed code unit. -/
def mkByte (n : Nat) : Byte := ⟨n % 256, Nat.mod_lt n (by decide)⟩

/-- UTF-8 encoding of one character. -/
def utf8EncodeChar (c : Char) : List Byte :=
  let n := c.toNat
  if n < 128 then [mkByte n]
  else if n < 2048 then [mkByte (192 + n / 64), mkByte (128 + n % 64)]
  else if n < 65536 then
    [mkByte (224 + n / 4096), mkByte (128 + n / 64 % 64), mkByte (128 + n % 64)]
  else
    [mkByte (240 + n / 262144), mkByte (128 + n / 4096 % 64),
     mkByte (128 + n / 64 % 64), mkByte (128 + n % 64)]

/-- UTF-8 encoding of a string (used to build concrete test buffers). -/
def utf8Encode (s : Str) : List Byte := (s.map utf8EncodeChar).flatten

/-- Continuation-byte test for UTF-8 decoding. -/
def contB (b : Byte) : Bool := decide (128 ≤ b.val ∧ b.val < 192)

/-- Python `bytes.decode('utf-8')` (strict: overlong forms and surrogates are
rejected, as CPython does). -/
def utf8Decode : List Byte → Option Str
  | [] => some []
  | b :: rest =>
    let n := b.val
    if n < 128 then (utf8Decode rest).map (Char.ofNat n :: ·)
    else if 194 ≤ n ∧ n ≤ 223 then
      match rest with
      | b1 :: r =>
        if contB b1 then
          (utf8Decode r).map (Char.ofNat ((n - 192) * 64 + (b1.val - 128)) :: ·)
        else none
      | [] => none
    else if 224 ≤ n ∧ n ≤ 239 then
      match rest with
      | b1 :: b2 :: r =>
        if (contB b1 && contB b2)
            ∧ (n ≠ 224 ∨ 160 ≤ b1.val) ∧ (n ≠ 237 ∨ b1.val < 160) then
          (utf8Decode r).map
            (Char.ofNat ((n - 224) * 4096 + (b1.val - 128) * 64 + (b2.val - 128)) :: ·)
        else none
      | _ => none
    else if 240 ≤ n ∧ n ≤ 244 then
      match rest with
      | b1 :: b2 :: b3 :: r =>
        if (contB b1 && contB b2 && contB b3)
            ∧ (n ≠ 240 ∨ 144 ≤ b1.val) ∧ (n ≠ 244 ∨ b1.val < 144) then
          (utf8Decode r).map
            (Char.ofNat ((n - 240) * 262144 + (b1.val - 128) * 4096
              + (b2.val - 128) * 64 + (b3.val - 128)) :: ·)
        else none
      | _ => none
    else none

/-- Decimal digit character of a value below ten. -/
def digitChar (n : Nat) : Char := Char.ofNat (48 + n)

/-- Value of a decimal digit character. -/
def digitVal (c : Char) : Nat := c.toNat - 48

/-- ASCII decimal digit test. -/
def isDig (c : Char) : Bool := decide (48 ≤ c.toNat ∧ c.toNat ≤ 57)

/-- Decimal digits of a natural number, fuel-driven so that it computes by
kernel reduction. -/
def natDigitsF : Nat → Nat → Str
  | 0, _ => []
  | fuel + 1, n =>
    if n < 10 then [digitChar n]
    else natDigitsF fuel (n / 10) ++ [digitChar (n % 10)]

/-- Decimal digits of a natural number, most significant first. -/
def natDigits (n : Nat) : Str := natDigitsF (n + 1) n

/-- Accumulating decimal reading of a digit string. -/
def parseNatAcc (acc : Nat) : Str → Nat
  | [] => acc
  | c :: cs => parseNatAcc (acc * 10 + digitVal c) cs

/-- Decimal value of a digit string. -/
def parseNat (s : Str) : Nat := parseNatAcc 0 s

/-- Split a string into its leading digit run and the rest. -/
def spanDigits (s : Str) : Str × Str := (s.takeWhile isDig, s.dropWhile isDig)

/-- Rational value `sgn * mant * 10^(esgn*emag) / 10^fracLen`, built through
`mkRat` so that it computes by kernel reduction. -/
def ratOfParts (sgn : Int) (mant : Nat) (fracLen : Nat) (esgn : Int) (emag : Nat) : ℚ :=
  if 0 ≤ esgn then mkRat (sgn * (mant * 10 ^ emag)) (10 ^ fracLen)
  else mkRat (sgn * mant) (10 ^ (fracLen + emag))

/-- Optional leading sign of a numeral. -/
def stripSign (s : Str) : Int × Str :=
  match s with
  | [] => (1, [])
  | c :: r => if c = '+' then (1, r) else if c = '-' then (-1, r) else (1, s)

/-- Fraction part: when the text starts with a point, consume it and take the
digit run after it; otherwise nothing is consumed. -/
def dotSpan (s : Str) : Str × Str :=
  match s with
  | [] => ([], [])
  | c :: r => if c = '.' then spanDigits r else ([], s)

/-- Python `float(s)` on already-stripped text, modelled over plain decimal
numerals: optional sign, digits with an optional fraction, optional exponent
(`inf`, `nan` and digit underscores are outside the model). -/
def floatVal (s : Str) : Option ℚ :=
  let p := stripSign s
  let d1 := spanDigits p.2
  let d2 := dotSpan d1.2
  if d1.1.isEmpty && d2.1.isEmpty then none
  else
    match d2.2 with
    | [] => some (ratOfParts p.1 (parseNat (d1.1 ++ d2.1)) d2.1.length 1 0)
    | e :: r =>
      if e = 'e' ∨ e = 'E' then
        let pe := stripSign r
        let ed := spanDigits pe.2
        if ed.1.isEmpty ∨ ¬ ed.2.isEmpty then none
        else some (ratOfParts p.1 (parseNat (d1.1 ++ d2.1)) d2.1.length pe.1 (parseNat ed.1))
      else none

/-- Round `q * 100` to the nearest integer, ties to even, through integer
arithmetic on the numerator and denominator (Python rounds the decimal
expansion of the float half-to-even when formatting with `.2f`). -/
def round2 (q : ℚ) : Int :=
  if (q.den : Int) < 2 * Int.emod (q.num * 100) (q.den : Int) then
    Int.ediv (q.num * 100) (q.den : Int) + 1
  else if 2 * Int.emod (q.num * 100) (q.den : Int) < (q.den : Int) then
    Int.ediv (q.num * 100) (q.den : Int)
  else if Int.emod (Int.ediv (q.num * 100) (q.den : Int)) 2 = 0 then
    Int.ediv (q.num * 100) (q.den : Int)
  else Int.ediv (q.num * 100) (q.den : Int) + 1

/-- Two-digit zero-padded decimal print. -/
def pad2 (n : Nat) : Str := [digitChar (n / 10 % 10), digitChar (n % 10)]

/-- Four-digit zero-padded decimal print. -/
def pad4 (n : Nat) : Str :=
  [digitChar (n / 1000 % 10), digitChar (n / 100 % 10),
   digitChar (n / 10 % 10), digitChar (n % 10)]

/-- Python `f"{q:.2f}"` for a nonnegative float, on the rational model. -/
def fmt2 (q : ℚ) : Str :=
  let n := (round2 q).toNat
  natDigits (n / 100) ++ '.' :: pad2 (n % 100)

/-- A calendar date as year, month, day. -/
structure YMD where
  y : Nat
  m : Nat
  d : Nat
deriving DecidableEq, Repr

/-- Gregorian leap-year rule, as `datetime` uses. -/
def isLeap (y : Nat) : Bool := y % 4 == 0 && (y % 100 != 0 || y % 400 == 0)

/-- Days in a month, as `datetime` validates. -/
def daysInMonth (y m : Nat) : Nat :=
  if m = 2 then (if isLeap y then 29 else 28)
  else if m = 4 ∨ m = 6 ∨ m = 9 ∨ m = 11 then 30
  else 31

/-- Validity of a date for Python `datetime` (year 1..9999, real calendar day). -/
def validYMD (v : YMD) : Prop :=
  1 ≤ v.y ∧ v.y ≤ 9999 ∧ 1 ≤ v.m ∧ v.m ≤ 12 ∧ 1 ≤ v.d ∧ v.d ≤ daysInMonth v.y v.m

instance (v : YMD) : Decidable (validYMD v) := by unfold validYMD; infer_instance

/-- Reading of the `strptime` patterns `%d` and `%m`: one or two digits, the
two-digit reading taken when a second digit follows, with the value range of
the CPython regular expression (`hi` is 31 for days, 12 for months). -/
def parse2or1 (hi : Nat) : Str → Option (Nat × Str)
  | a :: b :: r =>
    if isDig a then
      if isDig b then
        let v := digitVal a * 10 + digitVal b
        if 1 ≤ v ∧ v ≤ hi then some (v, r) else none
      else if 1 ≤ digitVal a then some (digitVal a, b :: r) else none
    else none
  | [a] => if isDig a && decide (1 ≤ digitVal a) then some (digitVal a, []) else none
  | [] => none

/-- Reading of one literal separator character. -/
def parseLit (c : Char) : Str → Option Str
  | x :: r => if x = c then some r else none
  | [] => none

/-- Reading of the `strptime` pattern `%Y`: exactly four digits. -/
def parse4Digits : Str → Option (Nat × Str)
  | a :: b :: c :: d :: r =>
    if isDig a && isDig b && isDig c && isDig d then
      some (digitVal a * 1000 + digitVal b * 100 + digitVal c * 10 + digitVal d, r)
    else none
  | _ => none

/-- Python `datetime.strptime(s, '%d' sep '%m' sep '%Y')` with calendar
validation; `none` is the `ValueError` case. -/
def strptimeDMY (sep : Char) (s : Str) : Option YMD :=
  match parse2or1 31 s with
  | none => none
  | some (d, s1) =>
    match parseLit sep s1 with
    | none => none
    | some s2 =>
      match parse2or1 12 s2 with
      | none => none
      | some (m, s3) =>
        match parseLit sep s3 with
        | none => none
        | some s4 =>
          match parse4Digits s4 with
          | none => none
          | some (y, s5) =>
            if s5 = [] ∧ validYMD ⟨y, m, d⟩ then some ⟨y, m, d⟩ else none

/-- Python `datetime.strptime(s, '%Y' sep '%m' sep '%d')` with calendar
validation. -/
def strptimeYMD (sep : Char) (s : Str) : Option YMD :=
  match parse4Digits s with
  | none => none
  | some (y, s1) =>
    match parseLit sep s1 with
    | none => none
    | some s2 =>
      match parse2or1 12 s2 with
      | none => none
      | some (m, s3) =>
        match parseLit sep s3 with
        | none => none
        | some s4 =>
          match parse2or1 31 s4 with
          | none => none
          | some (d, s5) =>
            if s5 = [] ∧ validYMD ⟨y, m, d⟩ then some ⟨y, m, d⟩ else none

/-- The AceMoney parser's date reading: the four formats tried in order
(`%d.%m.%Y`, `%d-%m-%Y`, `%Y/%m/%d`, `%Y-%m-%d`), first success wins. -/
def parseAceDate (s : Str) : Option YMD :=
  match strptimeDMY '.' s with
  | some v => some v
  | none =>
    match strptimeDMY '-' s with
    | some v => some v
    | none =>
      match strptimeYMD '/' s with
      | some v => some v
      | none => strptimeYMD '-' s

/-- Reading of the internal `YYYY-MM-DD` representation (`strptime` with
`'%Y-%m-%d'`), as the generator does. -/
def isoParse (s : Str) : Option YMD := strptimeYMD '-' s

/-- Python `date.strftime('%Y-%m-%d')`. -/
def isoFmt (v : YMD) : Str := pad4 v.y ++ '-' :: pad2 v.m ++ '-' :: pad2 v.d

/-- Python `date.strftime('%d.%m.%Y')`. -/
def dmyFmt (v : YMD) : Str := pad2 v.d ++ '.' :: pad2 v.m ++ '.' :: pad4 v.y

/-- States of the CPython `_csv` reader automaton. -/
inductive CsvSt
  | startRec
  | startFld
  | inFld
  | inQuo
  | quoInQuo
  | eatCrnl
deriving DecidableEq

/-- Message of the `_csv.Error` raised on a NUL character. -/
def nulErr : Str := ("line contains NUL").toList

/-- Message of the `_csv.Error` raised on a carriage return inside a line. -/
def crnlErr : Str :=
  ("new-line character seen in unquoted field - do you need to open the file in universal-newline mode?").toList

/-- The CPython `csv.reader` automaton over the character stream of an
`io.StringIO`, for the excel dialect with the given delimiter: returns the
records completed before the end of input or the first `_csv.Error`, paired
with that error if any.  Record boundaries fall exactly where CPython's
line-by-line reader completes a record, so a prefix of this list is what a
consumer that stops early would have seen. -/
def csvRowsAux (delim : Char) : Str → CsvSt → Str → List Str → List (List Str) × Option Str
  | [], st, f, r =>
    match st with
    | .startRec => ([], none)
    | .eatCrnl => ([r], none)
    | _ => ([r ++ [f]], none)
  | c :: cs, st, f, r =>
    if c = '\x00' then ([], some nulErr)
    else
      match st with
      | .startRec =>
        if c = '\n' then
          let p := csvRowsAux delim cs .startRec [] []
          ([] :: p.1, p.2)
        else if c = '\r' then csvRowsAux delim cs .eatCrnl f r
        else if c = '"' then csvRowsAux delim cs .inQuo f r
        else if c = delim then csvRowsAux delim cs .startFld [] (r ++ [f])
        else csvRowsAux delim cs .inFld (f ++ [c]) r
      | .startFld =>
        if c = '\n' then
          let p := csvRowsAux delim cs .startRec [] []
          ((r ++ [f]) :: p.1, p.2)
        else if c = '\r' then csvRowsAux delim cs .eatCrnl [] (r ++ [f])
        else if c = '"' then csvRowsAux delim cs .inQuo f r
        else if c = delim then csvRowsAux delim cs .startFld [] (r ++ [f])
        else csvRowsAux delim cs .inFld (f ++ [c]) r
      | .inFld =>
        if c = '\n' then
          let p := csvRowsAux delim cs .startRec [] []
          ((r ++ [f]) :: p.1, p.2)
        else if c = '\r' then csvRowsAux delim cs .eatCrnl [] (r ++ [f])
        else if c = delim then csvRowsAux delim cs .startFld [] (r ++ [f])
        else csvRowsAux delim cs .inFld (f ++ [c]) r
      | .inQuo =>
        if c = '"' then csvRowsAux delim cs .quoInQuo f r
        else csvRowsAux delim cs .inQuo (f ++ [c]) r
      | .quoInQuo =>
        if c = '"' then csvRowsAux delim cs .inQuo (f ++ ['"']) r
        else if c = delim then csvRowsAux delim cs .startFld [] (r ++ [f])
        else if c = '\n' then
          let p := csvRowsAux delim cs .startRec [] []
          ((r ++ [f]) :: p.1, p.2)
        else if c = '\r' then csvRowsAux delim cs .eatCrnl [] (r ++ [f])
        else csvRowsAux delim cs .inFld (f ++ [c]) r
      | .eatCrnl =>
        if c = '\n' then
          let p := csvRowsAux delim cs .startRec [] []
          (r :: p.1, p.2)
        else if c = '\r' then csvRowsAux delim cs .eatCrnl f r
        else ([], some crnlErr)

/-- Records of a text under the CPython `csv.reader`, with the terminal
`_csv.Error` when one occurs. -/
def csvRows (delim : Char) (t : Str) : List (List Str) × Option Str :=
  csvRowsAux delim t .startRec [] []

/-- QUOTE_MINIMAL quoting test of the `csv.writer` with comma delimiter:
quote when the field holds the delimiter, the quote character or a
line-terminator character. -/
def needsQuote (f : Str) : Bool := f.any (fun c => c = ',' || c = '"' || c = '\r' || c = '\n')

/-- Doubling of quote characters inside a quoted field. -/
def escQuotes : Str → Str
  | [] => []
  | c :: cs => if c = '"' then '"' :: '"' :: escQuotes cs else c :: escQuotes cs

/-- One written field under QUOTE_MINIMAL. -/
def csvField (f : Str) : Str := if needsQuote f then '"' :: (escQuotes f ++ ['"']) else f

/-- Comma-join of written fields. -/
def commaJoin : List Str → Str
  | [] => []
  | [f] => f
  | f :: fs => f ++ ',' :: commaJoin fs

/-- One record as the `csv.writer` emits it (`\r\n` terminator; a lone empty
field is written quoted, as CPython does to keep it distinct from a blank
line). -/
def csvRowOut (fs : List Str) : Str :=
  if fs = [[]] then ['"', '"', '\r', '\n']
  else commaJoin (fs.map csvField) ++ ['\r', '\n']

/-- A whole file as the `csv.writer` emits it. -/
def csvWrite (rows : List (List Str)) : Str := (rows.map csvRowOut).flatten

deriving instance DecidableEq for Except

/-- Canonical transaction record (`ParsedTransaction` in the source). -/
structure ParsedTransaction where
  date : Str
  payee : Str
  amount : ℚ
  original_category : Str := []
  original_comment : Str := []
deriving DecidableEq, Repr

/-- Index of the last occurrence of `k` in `fns`: later duplicates overwrite
earlier ones in `dict(zip(fieldnames, row))` and in the restval loop. -/
def lastIdxOf (k : Str) : List Str → Option Nat
  | [] => none
  | f :: rest =>
    match lastIdxOf k rest with
    | some i => some (i + 1)
    | none => if f = k then some 0 else none

/-- Lookup `row[k]` in a `csv.DictReader` row with fieldnames `fns` and cell
values `vals`: `none` is a `KeyError`, `some none` the `restval` `None` of a
row shorter than the fieldnames, `some (some v)` an actual string value. -/
def dictGet (fns vals : List Str) (k : Str) : Option (Option Str) :=
  match lastIdxOf k fns with
  | none => none
  | some i => some (vals[i]?)

/-- Lookup `row.get(k, '')`: a missing key yields the empty string; a `None`
value yields `none`, on which the subsequent `.strip()` raises. -/
def dictGetD (fns vals : List Str) (k : Str) : Option Str :=
  match dictGet fns vals k with
  | none => some []
  | some none => none
  | some (some v) => some v

/-- Message of the empty-input failure. -/
def fileEmptyMsg : Str := ("File is empty").toList

/-- Message of the headerless-file validation failure. -/
def noDataMsg : Str := ("File contains no data (not even headers)").toList

/-- Message of the zero-surviving-rows failure. -/
def noTxMsg : Str := ("No transactions found in CSV file").toList

/-- An uncaught `_csv.Error` escaping `parse` or `detect_csv_format`. -/
def csvCrashMsg (e : Str) : Str := ("_csv.Error: ").toList ++ e

/-- An uncaught `StopIteration` escaping `next(reader)`. -/
def stopIterMsg : Str := ("StopIteration").toList

/-- An uncaught `AttributeError` from `.strip()` on a `None` cell. -/
def attrNoneStripMsg : Str :=
  ("AttributeError: 'NoneType' object has no attribute 'strip'").toList

/-- Wrapping of a `_csv.Error` by `validate`'s catch-all handler. -/
def failedParseMsg (e : Str) : Str := ("Failed to parse CSV: ").toList ++ e

/-- The `Row {row_num}` marker the parsers test for before re-wrapping. -/
def rowTag (n : Nat) : Str := ("Row ").toList ++ natDigits n

/-- A row-scoped error message. -/
def rowMsg (n : Nat) (m : Str) : Str := rowTag n ++ (": ").toList ++ m

/-- Substring test (Python `in` on strings). -/
def hasInfix (s pat : Str) : Bool :=
  match s with
  | [] => pat.isEmpty
  | _ :: t => pat.isPrefixOf s || hasInfix t pat

/-- Re-raise with the row number attached unless the message already holds
the `Row {row_num}` marker. -/
def wrapRow (n : Nat) (m : Str) : Str := if hasInfix m (rowTag n) then m else rowMsg n m

/-- Message of a `KeyError` wrapped by the parsers. -/
def missingColMsg (k : Str) : Str := ("Missing column '").toList ++ k ++ ("'").toList

/-- Message raised for an empty payee. -/
def missingPayeeMsg : Str := ("Missing payee").toList

/-- Message raised when both amount columns are populated. -/
def bothColsMsg : Str := ("Both withdrawal and deposit have values").toList

/-- Message of `float()` on unconvertible text. -/
def floatErrMsg (w : Str) : Str :=
  ("could not convert string to float: '").toList ++ w ++ ("'").toList

/-- Message raised for a date matching none of the four accepted formats. -/
def invalidDateMsg (ds : Str) : Str :=
  ("Invalid date format '").toList ++ ds
  ++ ("' (expected DD.MM.YYYY, DD-MM-YYYY, YYYY/MM/DD, or YYYY-MM-DD)").toList

/-- Join strings with a separator (Python `sep.join`). -/
def joinSep (sep : Str) : List Str → Str
  | [] => []
  | [x] => x
  | x :: xs => x ++ sep ++ joinSep sep xs

/-- The nine expected AceMoney header names. -/
def aceExpected : List Str :=
  [("transaction").toList, ("date").toList, ("payee").toList, ("category").toList,
   ("status").toList, ("withdrawal").toList, ("deposit").toList, ("total").toList,
   ("comment").toList]

/-- `AceMoneyParser.normalize_header`: strip, lower-case, apply the alias map
(`num` to `transaction`, `s` to `status`). -/
def normHeader (h : Str) : Str :=
  let t := lowerStr (pyStrip h)
  if t = ("num").toList then ("transaction").toList
  else if t = ("s").toList then ("status").toList
  else t

/-- The AceMoney invalid-header validation message. -/
def aceHeaderErrMsg (found : List Str) : Str :=
  ("Invalid headers.\nExpected: ").toList ++ joinSep (", ").toList aceExpected
  ++ ("\nFound: ").toList ++ joinSep (", ").toList found
  ++ ("\nNote: Headers must match exactly (case-insensitive, 'Num' and 'S' are accepted as aliases)").toList

/-- The wrapper `parse` puts around a failed validation. -/
def valFailMsg (errs : List Str) : Str :=
  ("CSV validation failed: ").toList ++ joinSep ("; ").toList errs

/-- `AceMoneyParser.validate`. -/
def aceValidate (bs : List Byte) : List Str :=
  if emptyCheck bs then [fileEmptyMsg]
  else
    match csvRows ',' (latin1Decode bs) with
    | ([], some e) => [failedParseMsg e]
    | ([], none) => [noDataMsg]
    | (hdr :: _, _) =>
      let hs := hdr.map normHeader
      if hs = aceExpected then [] else [aceHeaderErrMsg hs]

/-- The `category`/`comment` pass-through at the end of an AceMoney row. -/
def aceFinishRow (fns vals : List Str) (v : YMD) (payee : Str) (amt : ℚ) :
    Except Str (Option ParsedTransaction) :=
  match dictGetD fns vals ("category").toList with
  | none => .error attrNoneStripMsg
  | some rawC =>
    match dictGetD fns vals ("comment").toList with
    | none => .error attrNoneStripMsg
    | some rawCom => .ok (some ⟨isoFmt v, payee, amt, pyStrip rawC, pyStrip rawCom⟩)

/-- Conversion of one AceMoney data row, in the source's evaluation order:
date, payee, withdrawal and deposit, then category and comment; `ok none` is
the silent skip of a row with neither amount column populated. -/
def aceProcessRow (fns : List Str) (n : Nat) (vals : List Str) :
    Except Str (Option ParsedTransaction) :=
  match dictGet fns vals ("date").toList with
  | none => .error (rowMsg n (missingColMsg ("date").toList))
  | some none => .error attrNoneStripMsg
  | some (some rawDate) =>
    let ds := pyStrip rawDate
    match parseAceDate ds with
    | none => .error (wrapRow n (invalidDateMsg ds))
    | some v =>
      match dictGet fns vals ("payee").toList with
      | none => .error (rowMsg n (missingColMsg ("payee").toList))
      | some none => .error attrNoneStripMsg
      | some (some rawPayee) =>
        let payee := pyStrip rawPayee
        if payee = [] then .error (rowMsg n missingPayeeMsg)
        else
          match dictGet fns vals ("withdrawal").toList with
          | none => .error (rowMsg n (missingColMsg ("withdrawal").toList))
          | some none => .error attrNoneStripMsg
          | some (some rawW) =>
            match dictGet fns vals ("deposit").toList with
            | none => .error (rowMsg n (missingColMsg ("deposit").toList))
            | some none => .error attrNoneStripMsg
            | some (some rawD) =>
              let w := pyStrip rawW
              let dep := pyStrip rawD
              if w ≠ [] ∧ dep ≠ [] then .error (rowMsg n bothColsMsg)
              else if w ≠ [] then
                match floatVal w with
                | none => .error (wrapRow n (floatErrMsg w))
                | some x => aceFinishRow fns vals v payee (-x)
              else if dep ≠ [] then
                match floatVal dep with
                | none => .error (wrapRow n (floatErrMsg dep))
                | some x => aceFinishRow fns vals v payee x
              else .ok none

/-- The row loop shared by both parsers: iterate the remaining csv records in
order (the `DictReader` silently skips zero-field records from blank lines and
numbers only the yielded ones), abort on the first row error, and raise the
pending `_csv.Error` when the iterator is exhausted by one. -/
def parseLoop (proc : Nat → List Str → Except Str (Option ParsedTransaction)) :
    Nat → List (List Str) → Option Str → Except Str (List ParsedTransaction)
  | _, [], none => .ok []
  | _, [], some e => .error (csvCrashMsg e)
  | n, vals :: rest, eOpt =>
    if vals = [] then parseLoop proc n rest eOpt
    else
      match proc n vals with
      | .error e => .error e
      | .ok none => parseLoop proc (n + 1) rest eOpt
      | .ok (some t) =>
        match parseLoop proc (n + 1) rest eOpt with
        | .error e => .error e
        | .ok ts => .ok (t :: ts)

/-- First record of a text under `csv.reader`, as a bare `next(reader)` sees
it, with the `_csv.Error` and `StopIteration` crash cases. -/
def firstRec (delim : Char) (t : Str) : Except Str (List Str) :=
  match csvRows delim t with
  | ([], some e) => .error (csvCrashMsg e)
  | ([], none) => .error stopIterMsg
  | (r :: _, _) => .ok r

/-- Consume records up to and including the first non-empty one, as the
header-skipping `next(reader)` on a `DictReader` does; `none` when the
iterator is exhausted first. -/
def dropToFirstRow : List (List Str) → Option (List (List Str))
  | [] => none
  | r :: rest => if r = [] then dropToFirstRow rest else some rest

/-- `AceMoneyParser.parse` after successful validation, over the decoded text:
normalize the first line's headers into fieldnames, skip the header record,
then run the row loop. -/
def aceRun (text : Str) : Except Str (List ParsedTransaction) :=
  let line0 := (splitOnC '\n' text).headD []
  match firstRec ',' line0 with
  | .error e => .error e
  | .ok hdr =>
    let fns := hdr.map normHeader
    let p := csvRows ',' text
    match dropToFirstRow p.1 with
    | none => .error (match p.2 with | some e => csvCrashMsg e | none => stopIterMsg)
    | some rest => parseLoop (aceProcessRow fns) 2 rest p.2

/-- `AceMoneyParser.parse`. -/
def aceParse (bs : List Byte) : Except Str (List ParsedTransaction) :=
  match aceValidate bs with
  | [] =>
    match aceRun (latin1Decode bs) with
    | .error e => .error e
    | .ok ts => if ts = [] then .error noTxMsg else .ok ts
  | errs => .error (valFailMsg errs)

/-- The six expected Danske Bank header names. -/
def danskeExpected : List Str :=
  [("Dato").toList, ("Tekst").toList, ("Beløb").toList, ("Saldo").toList,
   ("Status").toList, ("Afstemt").toList]

/-- The reduced header subset accepted despite encoding damage. -/
def danskeRequired : List Str :=
  [("Dato").toList, ("Tekst").toList, ("Saldo").toList, ("Status").toList]

/-- The Danske invalid-header validation message. -/
def danskeHeaderErrMsg : Str :=
  ("Invalid headers. Expected: ").toList ++ joinSep ("; ").toList danskeExpected

/-- Decoding of a Danske file: UTF-8 first, ISO-8859-1 as fallback (the
fallback never fails, so the dead no-decoding branch is unreachable). -/
def danskeDecode (bs : List Byte) : Str :=
  match utf8Decode bs with
  | some t => t
  | none => latin1Decode bs

/-- `DanskeBankParser.validate`. -/
def danskeValidate (bs : List Byte) : List Str :=
  if emptyCheck bs then [fileEmptyMsg]
  else
    match csvRows ';' (danskeDecode bs) with
    | ([], some e) => [failedParseMsg e]
    | ([], none) => [noDataMsg]
    | (hdr :: _, _) =>
      let hs := hdr.map (fun h => stripQuotes (pyStrip h))
      if hs = danskeExpected then []
      else if danskeRequired.all (fun req => hs.contains req) then []
      else [danskeHeaderErrMsg]

/-- Message raised when no column name starts with `Bel`. -/
def amountColMsg : Str :=
  ("Could not find amount column (expected 'Beløb' or similar)").toList

/-- Message of `strptime` on text not matching `%d.%m.%Y`. -/
def strptimeErrMsg (s : Str) : Str :=
  ("time data '").toList ++ s ++ ("' does not match format '%d.%m.%Y'").toList

/-- The Danish locale rewriting of amount text:
`.replace('.', '').replace(',', '.')`. -/
def danskeConv (s : Str) : Str :=
  (s.filter (fun c => c != '.')).map (fun c => if c = ',' then '.' else c)

/-- Conversion of one Danske Bank data row: date from `Dato`, payee from
`Tekst`, amount from the detected `Bel...` column with the Danish decimal
rewriting (drop periods, turn the comma into a point). -/
def danskeProcessRow (fns : List Str) (ac : Str) (n : Nat) (vals : List Str) :
    Except Str (Option ParsedTransaction) :=
  match dictGet fns vals ("Dato").toList with
  | none => .error (rowMsg n (missingColMsg ("Dato").toList))
  | some none => .error attrNoneStripMsg
  | some (some rawDato) =>
    let ds := stripQuotes (pyStrip rawDato)
    match strptimeDMY '.' ds with
    | none => .error (wrapRow n (strptimeErrMsg ds))
    | some v =>
      match dictGet fns vals ("Tekst").toList with
      | none => .error (rowMsg n (missingColMsg ("Tekst").toList))
      | some none => .error attrNoneStripMsg
      | some (some rawTekst) =>
        let payee := stripQuotes (pyStrip rawTekst)
        if payee = [] then .error (rowMsg n missingPayeeMsg)
        else
          match dictGet fns vals ac with
          | none => .error (rowMsg n (missingColMsg ac))
          | some none => .error attrNoneStripMsg
          | some (some rawAmt) =>
            let amtTxt := stripQuotes (pyStrip rawAmt)
            if amtTxt = [] then .ok none
            else
              let conv := danskeConv amtTxt
              match floatVal conv with
              | none => .error (wrapRow n (floatErrMsg conv))
              | some x => .ok (some ⟨isoFmt v, payee, x, [], []⟩)

/-- `DanskeBankParser.parse` after successful validation, over the decoded
text: fieldnames from the first record, prefix search for the amount column,
then the row loop. -/
def danskeRun (text : Str) : Except Str (List ParsedTransaction) :=
  let p := csvRows ';' text
  match p.1 with
  | [] =>
    match p.2 with
    | some e => .error (csvCrashMsg e)
    | none => .error amountColMsg
  | fns :: rest =>
    match fns.find? (fun f => (("Bel").toList).isPrefixOf (stripQuotes (pyStrip f))) with
    | none => .error amountColMsg
    | some ac => parseLoop (danskeProcessRow fns ac) 2 rest p.2

/-- `DanskeBankParser.parse`. -/
def danskeParse (bs : List Byte) : Except Str (List ParsedTransaction) :=
  match danskeValidate bs with
  | [] =>
    match danskeRun (danskeDecode bs) with
    | .error e => .error e
    | .ok ts => if ts = [] then .error noTxMsg else .ok ts
  | errs => .error (valFailMsg errs)

/-- Message of the undetectable-format failure of `detect_csv_format`. -/
def undetectableMsg : Str :=
  ("Could not detect CSV format. File must be either AceMoney (latin-1, comma-delimited) or Danske Bank (UTF-8, semicolon-delimited) format").toList

/-- One Danske header attempt of the detector on decoded text: `ok true` when
the semicolon pre-filter and header comparison succeed, `ok false` when the
detector moves on (including a caught `StopIteration`), `error` when the csv
reader raises past the caught exceptions. -/
def danskeHdrCheck (t : Str) : Except Str Bool :=
  if ((splitOnC '\n' t).headD []).contains ';' then
    match csvRows ';' t with
    | ([], some e) => .error (csvCrashMsg e)
    | ([], none) => .ok false
    | (hdr :: _, _) =>
      let hs := hdr.map (fun h => stripQuotes (pyStrip h))
      .ok (decide (hs = danskeExpected) || danskeRequired.all (fun req => hs.contains req))
  else .ok false

/-- The AceMoney header attempt of the detector. -/
def aceHdrCheck (t : Str) : Except Str Bool :=
  if ((splitOnC '\n' t).headD []).contains ',' then
    match csvRows ',' t with
    | ([], some e) => .error (csvCrashMsg e)
    | ([], none) => .ok false
    | (hdr :: _, _) => .ok (decide (hdr.map normHeader = aceExpected))
  else .ok false

/-- Tail of `detect_csv_format`: the AceMoney attempt and the final failure. -/
def detectAce (bs : List Byte) : Except Str Str :=
  match aceHdrCheck (latin1Decode bs) with
  | .error e => .error e
  | .ok true => .ok ("acemoney").toList
  | .ok false => .error undetectableMsg

/-- `detect_csv_format`: emptiness check, then the Danske attempt per encoding
(UTF-8, then ISO-8859-1), then the AceMoney attempt. -/
def detectFmt (bs : List Byte) : Except Str Str :=
  if emptyCheck bs then .error fileEmptyMsg
  else
    let afterUtf8 : Except Str Str :=
      match danskeHdrCheck (latin1Decode bs) with
      | .error e => .error e
      | .ok true => .ok ("danske_bank").toList
      | .ok false => detectAce bs
    match utf8Decode bs with
    | some t =>
      match danskeHdrCheck t with
      | .error e => .error e
      | .ok true => .ok ("danske_bank").toList
      | .ok false => afterUtf8
    | none => afterUtf8

/-- Input record of `CSVGenerator.generate`: keys `date`, `payee`, `amount`
required, `category` and `note` read with `.get(..., '')`. -/
structure ExportTx where
  date : Str
  payee : Str
  amount : ℚ
  category : Str := []
  note : Str := []
deriving DecidableEq, Repr

/-- Message of `strptime` on a date not in `YYYY-MM-DD` form. -/
def genDateErrMsg (s : Str) : Str :=
  ("time data '").toList ++ s ++ ("' does not match format '%Y-%m-%d'").toList

/-- Message of the `UnicodeEncodeError` from `.encode('latin-1')`. -/
def encodeErrMsg : Str :=
  ("UnicodeEncodeError: 'latin-1' codec cannot encode character").toList

/-- Withdrawal cell of one exported record. -/
def genW (amt : ℚ) : Str := if amt < 0 then fmt2 (-amt) else []

/-- Deposit cell of one exported record. -/
def genD (amt : ℚ) : Str := if amt < 0 then [] else fmt2 amt

/-- The nine cells of one exported record, in header order; `none` is the
`strptime` failure on a malformed date. -/
def genRowCells (t : ExportTx) : Option (List Str) :=
  match isoParse t.date with
  | none => none
  | some v =>
    some [[], dmyFmt v, t.payee, t.category, [], genW t.amount, genD t.amount, [], t.note]

/-- Cell rows of all exported records, stopping at the first bad date. -/
def genRowsAux : List ExportTx → Except Str (List (List Str))
  | [] => .ok []
  | t :: ts =>
    match genRowCells t with
    | none => .error (genDateErrMsg t.date)
    | some cells =>
      match genRowsAux ts with
      | .error e => .error e
      | .ok rows => .ok (cells :: rows)

/-- `CSVGenerator.generate`: header row plus one row per record through the
csv writer, the whole buffer encoded as latin-1. -/
def generate (txns : List ExportTx) : Except Str (List Byte) :=
  match genRowsAux txns with
  | .error e => .error e
  | .ok rows =>
    match latin1Encode (csvWrite (aceExpected :: rows)) with
    | some bts => .ok bts
    | none => .error encodeErrMsg

/-- A character that survives the round trip: latin-1 encodable and not the
NUL that the csv reader rejects. -/
def goodChar (c : Char) : Prop := c.toNat < 256 ∧ c ≠ '\x00'

instance (c : Char) : Decidable (goodChar c) := by unfold goodChar; infer_instance

/-- The amount that comes back after the generator prints it with two decimals
and the parser re-reads it (negative amounts go through the withdrawal column
as magnitudes). -/
def requant (a : ℚ) : ℚ :=
  if a < 0 then -(mkRat (round2 (-a)) 100) else mkRat (round2 a) 100

/-- The record handed to the generator for a parsed transaction, as
`api.py` builds it: category and comment pass through. -/
def toExport (t : ParsedTransaction) : ExportTx :=
  ⟨t.date, t.payee, t.amount, t.original_category, t.original_comment⟩

/-- The transaction that comes back when a parsed transaction is exported and
re-parsed: everything survives except the amount, which is requantized to two
decimals. -/
def retx (t : ParsedTransaction) : ParsedTransaction :=
  ⟨t.date, t.payee, requant t.amount, t.original_category, t.original_comment⟩

theorem mem_of_mem_dropWhile {p : Char → Bool} {s : Str} {c : Char}
    (h : c ∈ s.dropWhile p) : c ∈ s := by
  induction s with
  | nil => simpa using h
  | cons a t ih =>
    by_cases hp : p a
    · rw [List.dropWhile_cons, if_pos hp] at h
      exact List.mem_cons_of_mem _ (ih h)
    · rwa [List.dropWhile_cons, if_neg hp] at h

theorem mem_of_mem_stripEnd {p : Char → Bool} {s : Str} {c : Char}
    (h : c ∈ stripEnd p s) : c ∈ s := by
  unfold stripEnd at h
  rw [List.mem_reverse] at h
  have := mem_of_mem_dropWhile h
  rwa [List.mem_reverse] at this

theorem mem_of_mem_stripBoth {p : Char → Bool} {s : Str} {c : Char}
    (h : c ∈ stripBoth p s) : c ∈ s :=
  mem_of_mem_dropWhile (mem_of_mem_stripEnd h)

theorem dropWhile_eq_self_of {p : Char → Bool} {s : Str}
    (h : ∀ c ∈ s, p c = false) : s.dropWhile p = s := by
  cases s with
  | nil => rfl
  | cons a t => rw [List.dropWhile_cons, if_neg (by simp [h a (List.mem_cons_self a t)])]

theorem stripEnd_eq_self_of {p : Char → Bool} {s : Str}
    (h : ∀ c ∈ s, p c = false) : stripEnd p s = s := by
  unfold stripEnd
  rw [dropWhile_eq_self_of (fun c hc => h c (List.mem_reverse.mp hc)), List.reverse_reverse]

theorem stripBoth_eq_self_of {p : Char → Bool} {s : Str}
    (h : ∀ c ∈ s, p c = false) : stripBoth p s = s := by
  unfold stripBoth
  rw [dropWhile_eq_self_of h, stripEnd_eq_self_of h]

theorem dropWhile_head_false {p : Char → Bool} {s t : Str} {c : Char}
    (h : s.dropWhile p = c :: t) : p c = false := by
  induction s with
  | nil => simp at h
  | cons a u ih =>
    by_cases hp : p a
    · rw [List.dropWhile_cons, if_pos hp] at h; exact ih h
    · rw [List.dropWhile_cons, if_neg hp] at h
      cases h; simpa using hp

theorem exists_dropWhile_suffix (p : Char → Bool) (s : Str) :
    ∃ ys, s = ys ++ s.dropWhile p := by
  induction s with
  | nil => exact ⟨[], rfl⟩
  | cons a t ih =>
    by_cases hp : p a
    · obtain ⟨ys, hy⟩ := ih
      exact ⟨a :: ys, by rw [List.dropWhile_cons, if_pos hp, List.cons_append, ← hy]⟩
    · exact ⟨[], by rw [List.dropWhile_cons, if_neg hp, List.nil_append]⟩

theorem exists_stripEnd_prefix (p : Char → Bool) (s : Str) :
    ∃ ys, s = stripEnd p s ++ ys := by
  obtain ⟨ys, hy⟩ := exists_dropWhile_suffix p s.reverse
  refine ⟨ys.reverse, ?_⟩
  have := congrArg List.reverse hy
  rw [List.reverse_reverse, List.reverse_append] at this
  simpa [stripEnd] using this

theorem dropWhile_stripEnd_dropWhile (p : Char → Bool) (s : Str) :
    (stripEnd p (s.dropWhile p)).dropWhile p = stripEnd p (s.dropWhile p) := by
  rcases he : stripEnd p (s.dropWhile p) with _ | ⟨c, t⟩
  · rfl
  · obtain ⟨ys, hy⟩ := exists_stripEnd_prefix p (s.dropWhile p)
    rw [he] at hy
    have hc : p c = false := by
      have : s.dropWhile p = c :: (t ++ ys) := by simpa using hy
      exact dropWhile_head_false this
    rw [List.dropWhile_cons, if_neg (by simp [hc])]

theorem stripEnd_idem (p : Char → Bool) (s : Str) :
    stripEnd p (stripEnd p s) = stripEnd p s := by
  unfold stripEnd
  rw [List.reverse_reverse]
  congr 1
  rcases hd : s.reverse.dropWhile p with _ | ⟨c, t⟩
  · rfl
  · rw [List.dropWhile_cons, if_neg (by simp [dropWhile_head_false hd])]

theorem stripBoth_idem (p : Char → Bool) (s : Str) :
    stripBoth p (stripBoth p s) = stripBoth p s := by
  unfold stripBoth
  rw [dropWhile_stripEnd_dropWhile, stripEnd_idem]

theorem pyStrip_idem (s : Str) : pyStrip (pyStrip s) = pyStrip s := stripBoth_idem _ s

theorem pyStrip_eq_self_of {s : Str} (h : ∀ c ∈ s, pyWs c = false) : pyStrip s = s :=
  stripBoth_eq_self_of h

theorem mem_of_mem_pyStrip {s : Str} {c : Char} (h : c ∈ pyStrip s) : c ∈ s :=
  mem_of_mem_stripBoth h

/-! Lemmas about decimal digits and numerals. -/

theorem digitChar_toNat {k : Nat} (h : k < 10) : (digitChar k).toNat = 48 + k := by
  interval_cases k <;> decide

theorem digitVal_digitChar {k : Nat} (h : k < 10) : digitVal (digitChar k) = k := by
  interval_cases k <;> decide

theorem isDig_digitChar {k : Nat} (h : k < 10) : isDig (digitChar k) = true := by
  interval_cases k <;> decide

theorem parseNatAcc_append_digit (a : Nat) (xs : Str) (c : Char) :
    parseNatAcc a (xs ++ [c]) = parseNatAcc a xs * 10 + digitVal c := by
  induction xs generalizing a with
  | nil => rfl
  | cons x t ihx => exact ihx (a * 10 + digitVal x)

theorem natDigitsF_spec (f : Nat) :
    ∀ n, n + 1 ≤ f →
      natDigitsF f n ≠ [] ∧ (∀ c ∈ natDigitsF f n, isDig c = true) ∧
      (∀ acc, parseNatAcc acc (natDigitsF f n) = acc * 10 ^ (natDigitsF f n).length + n) := by
  induction f with
  | zero => intro n h; omega
  | succ f ih =>
    intro n _
    by_cases hn : n < 10
    · simp only [natDigitsF, if_pos hn]
      refine ⟨by simp, ?_, ?_⟩
      · intro c hc
        rw [List.mem_singleton] at hc
        subst hc; exact isDig_digitChar hn
      · intro acc
        have h1 : parseNatAcc acc [digitChar n] = acc * 10 + digitVal (digitChar n) := rfl
        rw [h1, digitVal_digitChar hn, List.length_singleton, pow_one]
    · simp only [natDigitsF, if_neg hn]
      have hrec : n / 10 + 1 ≤ f := by
        have h1 : n / 10 < n := Nat.div_lt_self (by omega) (by omega)
        omega
      obtain ⟨hne, hdig, hval⟩ := ih (n / 10) hrec
      refine ⟨by simp [hne], ?_, ?_⟩
      · intro c hc
        rw [List.mem_append] at hc
        rcases hc with hc | hc
        · exact hdig c hc
        · rw [List.mem_singleton] at hc
          subst hc; exact isDig_digitChar (Nat.mod_lt _ (by omega))
      · intro acc
        rw [parseNatAcc_append_digit, hval acc, List.length_append, List.length_singleton,
          digitVal_digitChar (Nat.mod_lt _ (by omega)), pow_succ]
        have hdm : 10 * (n / 10) + n % 10 = n := Nat.div_add_mod n 10
        calc (acc * 10 ^ (natDigitsF f (n / 10)).length + n / 10) * 10 + n % 10
            = acc * (10 ^ (natDigitsF f (n / 10)).length * 10) + (10 * (n / 10) + n % 10) := by
              ring
          _ = acc * (10 ^ (natDigitsF f (n / 10)).length * 10) + n := by rw [hdm]

theorem natDigits_ne_nil (n : Nat) : natDigits n ≠ [] :=
  (natDigitsF_spec (n + 1) n (le_refl _)).1

theorem natDigits_digits {n : Nat} : ∀ c ∈ natDigits n, isDig c = true :=
  (natDigitsF_spec (n + 1) n (le_refl _)).2.1

theorem parseNatAcc_natDigits (acc n : Nat) :
    parseNatAcc acc (natDigits n) = acc * 10 ^ (natDigits n).length + n :=
  (natDigitsF_spec (n + 1) n (le_refl _)).2.2 acc

theorem parseNat_natDigits (n : Nat) : parseNat (natDigits n) = n := by
  unfold parseNat
  rw [parseNatAcc_natDigits]; ring

/-! Lemmas about digit runs, formatting and float parsing. -/

theorem isDig_range {c : Char} (h : isDig c = true) : 48 ≤ c.toNat ∧ c.toNat ≤ 57 := by
  simpa [isDig] using h

theorem takeWhile_append_of {p : Char → Bool} {ds r : Str}
    (hds : ∀ c ∈ ds, p c = true)
    (hr : ∀ a t, r = a :: t → p a = false) :
    (ds ++ r).takeWhile p = ds ∧ (ds ++ r).dropWhile p = r := by
  induction ds with
  | nil =>
    simp only [List.nil_append]
    cases r with
    | nil => simp
    | cons a t =>
      have ha := hr a t rfl
      rw [List.takeWhile_cons, List.dropWhile_cons]
      simp [ha]
  | cons d ds ih =>
    have hd := hds d (List.mem_cons_self d ds)
    obtain ⟨h1, h2⟩ := ih (fun c hc => hds c (List.mem_cons_of_mem d hc)) 
    rw [List.cons_append, List.takeWhile_cons, List.dropWhile_cons]
    simp [hd, h1, h2]

theorem spanDigits_append {ds r : Str} (hds : ∀ c ∈ ds, isDig c = true)
    (hr : ∀ a t, r = a :: t → isDig a = false) :
    spanDigits (ds ++ r) = (ds, r) := by
  obtain ⟨h1, h2⟩ := takeWhile_append_of hds hr
  unfold spanDigits
  rw [h1, h2]

theorem pad2_digits (m : Nat) : ∀ c ∈ pad2 m, isDig c = true := by
  intro c hc
  simp only [pad2, List.mem_cons, List.mem_singleton] at hc
  rcases hc with rfl | rfl | h
  · exact isDig_digitChar (Nat.mod_lt _ (by omega))
  · exact isDig_digitChar (Nat.mod_lt _ (by omega))
  · simp at h

theorem pad4_digits (y : Nat) : ∀ c ∈ pad4 y, isDig c = true := by
  intro c hc
  simp only [pad4, List.mem_cons, List.mem_singleton] at hc
  rcases hc with rfl | rfl | rfl | rfl | h
  · exact isDig_digitChar (Nat.mod_lt _ (by omega))
  · exact isDig_digitChar (Nat.mod_lt _ (by omega))
  · exact isDig_digitChar (Nat.mod_lt _ (by omega))
  · exact isDig_digitChar (Nat.mod_lt _ (by omega))
  · simp at h

theorem fmt2_shape (q : ℚ) :
    fmt2 q = natDigits ((round2 q).toNat / 100) ++ '.' :: pad2 ((round2 q).toNat % 100) := rfl

theorem fmt2_ne_nil (q : ℚ) : fmt2 q ≠ [] := by
  rw [fmt2_shape]
  intro h
  exact natDigits_ne_nil _ (List.append_eq_nil.mp h).1

theorem fmt2_chars (q : ℚ) : ∀ c ∈ fmt2 q, isDig c = true ∨ c = '.' := by
  intro c hc
  rw [fmt2_shape, List.mem_append, List.mem_cons] at hc
  rcases hc with hc | rfl | hc
  · exact Or.inl (natDigits_digits c hc)
  · exact Or.inr rfl
  · exact Or.inl (pad2_digits _ c hc)

theorem pyWs_false_of_visible {c : Char} (h1 : 33 ≤ c.toNat) (h2 : c.toNat ≤ 132) :
    pyWs c = false := by
  simp only [pyWs, decide_eq_false_iff_not]
  omega

theorem pyWs_of_digitish {c : Char} (h : isDig c = true ∨ c = '.') : pyWs c = false := by
  rcases h with h | rfl
  · obtain ⟨h1, h2⟩ := isDig_range h
    exact pyWs_false_of_visible (by omega) (by omega)
  · decide

theorem pyStrip_fmt2 (q : ℚ) : pyStrip (fmt2 q) = fmt2 q :=
  pyStrip_eq_self_of (fun c hc => pyWs_of_digitish (fmt2_chars q c hc))

theorem isDig_ne_signs {c : Char} (h : isDig c = true) :
    c ≠ '+' ∧ c ≠ '-' ∧ c ≠ '.' := by
  obtain ⟨h1, h2⟩ := isDig_range h
  refine ⟨?_, ?_, ?_⟩ <;> intro he <;> subst he <;> simp_all

theorem floatVal_fmt2 (q : ℚ) (h : 0 ≤ round2 q) :
    floatVal (fmt2 q) = some (mkRat (round2 q) 100) := by
  have hcast : (((round2 q).toNat : Int)) = round2 q := Int.toNat_of_nonneg h
  rcases hD : natDigits ((round2 q).toNat / 100) with _ | ⟨d, ds⟩
  · exact absurd hD (natDigits_ne_nil _)
  have hdigAll : ∀ c ∈ d :: ds, isDig c = true := by
    rw [← hD]; exact natDigits_digits
  have hd0 : isDig d = true := hdigAll d (List.mem_cons_self d ds)
  have hfmt : fmt2 q = d :: (ds ++ '.' :: pad2 ((round2 q).toNat % 100)) := by
    rw [fmt2_shape, hD, List.cons_append]
  rw [hfmt]
  unfold floatVal
  have hne := isDig_ne_signs hd0
  have hsign : stripSign (d :: (ds ++ '.' :: pad2 ((round2 q).toNat % 100)))
      = (1, d :: (ds ++ '.' :: pad2 ((round2 q).toNat % 100))) := by
    simp [stripSign, hne.1, hne.2.1]
  have hspan1 : spanDigits (d :: (ds ++ '.' :: pad2 ((round2 q).toNat % 100)))
      = (d :: ds, '.' :: pad2 ((round2 q).toNat % 100)) := by
    rw [← List.cons_append]
    exact spanDigits_append hdigAll (by intro a t ht; cases ht; decide)
  have hspan2 : dotSpan ('.' :: pad2 ((round2 q).toNat % 100))
      = (pad2 ((round2 q).toNat % 100), []) := by
    simp only [dotSpan, if_pos rfl]
    have := @spanDigits_append (pad2 ((round2 q).toNat % 100)) []
      (pad2_digits _) (by intro a t ht; simp at ht)
    simpa using this
  have hlen : (pad2 ((round2 q).toNat % 100)).length = 2 := by simp [pad2]
  have hval : parseNat (d :: (ds ++ pad2 ((round2 q).toNat % 100))) = (round2 q).toNat := by
    have hsplit : d :: (ds ++ pad2 ((round2 q).toNat % 100))
        = ((d :: ds) ++ [digitChar ((round2 q).toNat % 100 / 10 % 10)])
          ++ [digitChar ((round2 q).toNat % 100 % 10)] := by
      simp [pad2]
    rw [hsplit]
    unfold parseNat
    rw [parseNatAcc_append_digit, parseNatAcc_append_digit]
    have h1 : parseNatAcc 0 (d :: ds) = (round2 q).toNat / 100 := by
      have := parseNat_natDigits ((round2 q).toNat / 100)
      rw [hD] at this
      exact this
    rw [h1, digitVal_digitChar (by omega), digitVal_digitChar (by omega)]
    omega
  have hrat : ratOfParts 1 ((round2 q).toNat) 2 1 0 = mkRat (round2 q) 100 := by
    simp only [ratOfParts, if_pos (by norm_num : (0:Int) ≤ 1)]
    norm_num [hcast]
  simp only [hsign, hspan1, hspan2, List.isEmpty_cons, Bool.false_and,
    Bool.false_eq_true, if_false, List.cons_append, hlen, hval, hrat]

/-! Lemmas about the two-decimal rounding. -/

theorem round2_nonneg {q : ℚ} (h : 0 ≤ q) : 0 ≤ round2 q := by
  have hnum : 0 ≤ q.num := Rat.num_nonneg.mpr h
  have hdpos : (0 : Int) < (q.den : Int) := by exact_mod_cast q.den_pos
  have he : 0 ≤ Int.ediv (q.num * 100) (q.den : Int) :=
    Int.ediv_nonneg (by positivity) (by omega)
  unfold round2
  split_ifs <;> omega

theorem round2_bound (q : ℚ) : |q * 100 - (round2 q : ℚ)| ≤ 1 / 2 := by
  have hdN : 0 < q.den := q.den_pos
  have hd : (0 : Int) < (q.den : Int) := by exact_mod_cast hdN
  have hdQ : (0 : ℚ) < (q.den : ℚ) := by exact_mod_cast hdN
  have hden0 : ((q.den : ℚ)) ≠ 0 := ne_of_gt hdQ
  have hsplit : q.num * 100
      = (q.den : Int) * Int.ediv (q.num * 100) (q.den : Int)
        + Int.emod (q.num * 100) (q.den : Int) := (Int.ediv_add_emod _ _).symm
  have hr0 : (0 : Int) ≤ Int.emod (q.num * 100) (q.den : Int) :=
    Int.emod_nonneg _ (by omega)
  have hrlt : Int.emod (q.num * 100) (q.den : Int) < (q.den : Int) :=
    Int.emod_lt_of_pos _ hd
  set f : Int := Int.ediv (q.num * 100) (q.den : Int) with hf
  set r : Int := Int.emod (q.num * 100) (q.den : Int) with hr
  set x : ℚ := (r : ℚ) / (q.den : ℚ) with hx
  have hc : ((q.num : ℚ)) * 100 = (q.den : ℚ) * (f : ℚ) + (r : ℚ) := by
    exact_mod_cast hsplit
  have key : q * 100 = (f : ℚ) + x := by
    have h1 : q * 100 = ((q.num : ℚ) * 100) / (q.den : ℚ) := by
      conv_lhs => rw [← Rat.num_div_den q]
      ring
    rw [h1, hc, hx]
    field_simp
    ring
  have hx0 : 0 ≤ x := by
    rw [hx]
    exact div_nonneg (by exact_mod_cast hr0) (le_of_lt hdQ)
  have hx1 : x < 1 := by
    rw [hx, div_lt_one hdQ]
    exact_mod_cast hrlt
  unfold round2
  rw [← hf, ← hr]
  split_ifs with hA hB hC
  · have hgt : 1 / 2 < x := by
      rw [hx, lt_div_iff hdQ]
      have h2 : ((q.den : Int) : ℚ) < 2 * (r : ℚ) := by exact_mod_cast hA
      push_cast at h2
      linarith
    rw [key]
    push_cast
    rw [abs_le]
    constructor <;> linarith
  · have hlt : x < 1 / 2 := by
      rw [hx, div_lt_iff hdQ]
      have h2 : 2 * (r : ℚ) < ((q.den : Int) : ℚ) := by exact_mod_cast hB
      push_cast at h2
      linarith
    rw [key]
    rw [abs_le]
    constructor <;> linarith
  · have htieI : 2 * r = (q.den : Int) := by omega
    have htie : x = 1 / 2 := by
      rw [hx, div_eq_iff hden0]
      have h2 : 2 * (r : ℚ) = ((q.den : Int) : ℚ) := by exact_mod_cast htieI
      push_cast at h2
      linarith
    rw [key]
    rw [abs_le]
    constructor <;> linarith
  · have htieI : 2 * r = (q.den : Int) := by omega
    have htie : x = 1 / 2 := by
      rw [hx, div_eq_iff hden0]
      have h2 : 2 * (r : ℚ) = ((q.den : Int) : ℚ) := by exact_mod_cast htieI
      push_cast at h2
      linarith
    rw [key]
    push_cast
    rw [abs_le]
    constructor <;> linarith

theorem mkRat100_bound (q : ℚ) : |q - (mkRat (round2 q) 100 : ℚ)| ≤ 1 / 200 := by
  have h100 : (mkRat (round2 q) 100 : ℚ) = (round2 q : ℚ) / 100 := by
    rw [Rat.mkRat_eq_divInt, Rat.divInt_eq_div]
    norm_num
  have hb := round2_bound q
  rw [h100]
  have heq : q - (round2 q : ℚ) / 100 = (q * 100 - (round2 q : ℚ)) / 100 := by ring
  rw [heq, abs_div]
  rw [show |(100 : ℚ)| = 100 by norm_num]
  rw [div_le_iff (by norm_num : (0:ℚ) < 100)]
  linarith

/-! Round-trip lemmas for the date formats. -/

theorem parse2or1_pad2 {m hi : Nat} (h1 : 1 ≤ m) (h2 : m ≤ hi) (hm : m ≤ 99) (r : Str) :
    parse2or1 hi (pad2 m ++ r) = some (m, r) := by
  have e1 : isDig (digitChar (m / 10 % 10)) = true := isDig_digitChar (Nat.mod_lt _ (by omega))
  have e2 : isDig (digitChar (m % 10)) = true := isDig_digitChar (Nat.mod_lt _ (by omega))
  have v1 : digitVal (digitChar (m / 10 % 10)) = m / 10 % 10 :=
    digitVal_digitChar (Nat.mod_lt _ (by omega))
  have v2 : digitVal (digitChar (m % 10)) = m % 10 :=
    digitVal_digitChar (Nat.mod_lt _ (by omega))
  have hsh : pad2 m ++ r = digitChar (m / 10 % 10) :: digitChar (m % 10) :: r := by
    simp [pad2]
  rw [hsh]
  simp only [parse2or1, e1, e2, v1, v2, if_true]
  rw [show m / 10 % 10 * 10 + m % 10 = m by omega]
  rw [if_pos ⟨h1, h2⟩]

theorem parse4Digits_pad4 {y : Nat} (hy : y ≤ 9999) (r : Str) :
    parse4Digits (pad4 y ++ r) = some (y, r) := by
  have e1 : isDig (digitChar (y / 1000 % 10)) = true := isDig_digitChar (Nat.mod_lt _ (by omega))
  have e2 : isDig (digitChar (y / 100 % 10)) = true := isDig_digitChar (Nat.mod_lt _ (by omega))
  have e3 : isDig (digitChar (y / 10 % 10)) = true := isDig_digitChar (Nat.mod_lt _ (by omega))
  have e4 : isDig (digitChar (y % 10)) = true := isDig_digitChar (Nat.mod_lt _ (by omega))
  have v1 : digitVal (digitChar (y / 1000 % 10)) = y / 1000 % 10 :=
    digitVal_digitChar (Nat.mod_lt _ (by omega))
  have v2 : digitVal (digitChar (y / 100 % 10)) = y / 100 % 10 :=
    digitVal_digitChar (Nat.mod_lt _ (by omega))
  have v3 : digitVal (digitChar (y / 10 % 10)) = y / 10 % 10 :=
    digitVal_digitChar (Nat.mod_lt _ (by omega))
  have v4 : digitVal (digitChar (y % 10)) = y % 10 :=
    digitVal_digitChar (Nat.mod_lt _ (by omega))
  have hsh : pad4 y ++ r = digitChar (y / 1000 % 10) :: digitChar (y / 100 % 10)
      :: digitChar (y / 10 % 10) :: digitChar (y % 10) :: r := by
    simp [pad4]
  rw [hsh]
  simp only [parse4Digits, e1, e2, e3, e4, v1, v2, v3, v4, Bool.and_self, if_true]
  rw [show y / 1000 % 10 * 1000 + y / 100 % 10 * 100 + y / 10 % 10 * 10 + y % 10 = y by omega]

theorem parseLit_cons (c : Char) (r : Str) : parseLit c (c :: r) = some r := by
  simp [parseLit]

theorem strptimeYMD_isoFmt {v : YMD} (h : validYMD v) : strptimeYMD '-' (isoFmt v) = some v := by
  obtain ⟨hy1, hy2, hm1, hm2, hd1, hd2⟩ := h
  have hd31 : v.d ≤ 31 := le_trans hd2 (by unfold daysInMonth; split_ifs <;> omega)
  have hiso : isoFmt v = pad4 v.y ++ '-' :: (pad2 v.m ++ '-' :: pad2 v.d) := rfl
  have hlast := @parse2or1_pad2 v.d 31 hd1 hd31 (by omega) []
  rw [List.append_nil] at hlast
  rw [hiso]
  unfold strptimeYMD
  simp only [parse4Digits_pad4 hy2, parseLit_cons,
    parse2or1_pad2 hm1 hm2 (by omega : v.m ≤ 99), hlast]
  rw [if_pos (by exact ⟨by trivial, hy1, hy2, hm1, hm2, hd1, hd2⟩)]

theorem strptimeDMY_dmyFmt {v : YMD} (h : validYMD v) : strptimeDMY '.' (dmyFmt v) = some v := by
  obtain ⟨hy1, hy2, hm1, hm2, hd1, hd2⟩ := h
  have hd31 : v.d ≤ 31 := le_trans hd2 (by unfold daysInMonth; split_ifs <;> omega)
  have hdmy : dmyFmt v = pad2 v.d ++ '.' :: (pad2 v.m ++ '.' :: pad4 v.y) := rfl
  have hlast := @parse4Digits_pad4 v.y hy2 []
  rw [List.append_nil] at hlast
  rw [hdmy]
  unfold strptimeDMY
  simp only [parse2or1_pad2 hd1 hd31 (by omega : v.d ≤ 99), parseLit_cons,
    parse2or1_pad2 hm1 hm2 (by omega : v.m ≤ 99), hlast]
  rw [if_pos (by exact ⟨by trivial, hy1, hy2, hm1, hm2, hd1, hd2⟩)]

theorem parseAceDate_dmyFmt {v : YMD} (h : validYMD v) : parseAceDate (dmyFmt v) = some v := by
  unfold parseAceDate
  rw [strptimeDMY_dmyFmt h]

theorem isoParse_isoFmt {v : YMD} (h : validYMD v) : isoParse (isoFmt v) = some v :=
  strptimeYMD_isoFmt h

theorem strptimeDMY_valid {sep : Char} {s : Str} {v : YMD}
    (h : strptimeDMY sep s = some v) : validYMD v := by
  unfold strptimeDMY at h
  repeat' split at h
  all_goals simp_all
  all_goals (rename_i hcond _; obtain ⟨rfl⟩ := h; exact hcond.2)

theorem strptimeYMD_valid {sep : Char} {s : Str} {v : YMD}
    (h : strptimeYMD sep s = some v) : validYMD v := by
  unfold strptimeYMD at h
  repeat' split at h
  all_goals simp_all
  all_goals (rename_i hcond _; obtain ⟨rfl⟩ := h; exact hcond.2)

theorem parseAceDate_valid {s : Str} {v : YMD}
    (h : parseAceDate s = some v) : validYMD v := by
  unfold parseAceDate at h
  rcases h1 : strptimeDMY '.' s with _ | w
  · simp only [h1] at h
    rcases h2 : strptimeDMY '-' s with _ | w
    · simp only [h2] at h
      rcases h3 : strptimeYMD '/' s with _ | w
      · simp only [h3] at h
        exact strptimeYMD_valid h
      · simp only [h3] at h
        cases h
        exact strptimeYMD_valid h3
    · simp only [h2] at h
      cases h
      exact strptimeDMY_valid h2
  · simp only [h1] at h
    cases h
    exact strptimeDMY_valid h1

/-! Round-trip lemmas for the csv writer and reader. -/

/-- Characters a written unquoted field may contain. -/
def plainChar (c : Char) : Prop :=
  c ≠ ',' ∧ c ≠ '"' ∧ c ≠ '\r' ∧ c ≠ '\n' ∧ c ≠ '\x00'

theorem plainChar_of_needsQuote {f : Str} (h : needsQuote f = false)
    (hn : ∀ c ∈ f, c ≠ '\x00') : ∀ c ∈ f, plainChar c := by
  intro c hc
  unfold needsQuote at h
  rw [List.any_eq_false] at h
  have := h c hc
  simp only [Bool.or_eq_true, decide_eq_true_eq, not_or] at this
  exact ⟨this.1.1.1, this.1.1.2, this.1.2, this.2, hn c hc⟩

theorem csvRowsAux_inFld_consume {cs : Str}
    (hcs : ∀ c ∈ cs, plainChar c) (rest : Str) (f : Str) (r : List Str) :
    csvRowsAux ',' (cs ++ rest) .inFld f r = csvRowsAux ',' rest .inFld (f ++ cs) r := by
  induction cs generalizing f with
  | nil => simp
  | cons c t ih =>
    obtain ⟨h1, h2, h3, h4, h5⟩ := hcs c (List.mem_cons_self c t)
    rw [List.cons_append]
    rw [show csvRowsAux ',' (c :: (t ++ rest)) .inFld f r
      = csvRowsAux ',' (t ++ rest) .inFld (f ++ [c]) r from by
        simp only [csvRowsAux, if_neg h5, if_neg h4, if_neg h3, if_neg h1]]
    rw [ih (fun x hx => hcs x (List.mem_cons_of_mem c hx))]
    simp

theorem csvRowsAux_inQuo_consume {g : Str}
    (hg : ∀ c ∈ g, c ≠ '\x00') (rest : Str) (f : Str) (r : List Str) :
    csvRowsAux ',' (escQuotes g ++ rest) .inQuo f r
      = csvRowsAux ',' rest .inQuo (f ++ g) r := by
  induction g generalizing f with
  | nil => simp [escQuotes]
  | cons c t ih =>
    have h0 := hg c (List.mem_cons_self c t)
    have hrec := ih (fun x hx => hg x (List.mem_cons_of_mem c hx))
    by_cases hq : c = '"'
    · subst hq
      rw [show escQuotes ('"' :: t) = '"' :: '"' :: escQuotes t from by
        simp [escQuotes]]
      rw [List.cons_append, List.cons_append]
      rw [show csvRowsAux ',' ('"' :: ('"' :: (escQuotes t ++ rest))) .inQuo f r
          = csvRowsAux ',' ('"' :: (escQuotes t ++ rest)) .quoInQuo f r from rfl]
      rw [show csvRowsAux ',' ('"' :: (escQuotes t ++ rest)) .quoInQuo f r
          = csvRowsAux ',' (escQuotes t ++ rest) .inQuo (f ++ ['"']) r from rfl]
      rw [hrec]
      simp
    · rw [show escQuotes (c :: t) = c :: escQuotes t from by simp [escQuotes, hq]]
      rw [List.cons_append]
      rw [show csvRowsAux ',' (c :: (escQuotes t ++ rest)) .inQuo f r
          = csvRowsAux ',' (escQuotes t ++ rest) .inQuo (f ++ [c]) r from by
        simp only [csvRowsAux, if_neg h0, if_neg hq]]
      rw [hrec]
      simp

theorem csvRowsAux_field_sep {f : Str} (hf : ∀ c ∈ f, c ≠ '\x00') (rest : Str) (r : List Str) :
    csvRowsAux ',' (csvField f ++ ',' :: rest) .startFld [] r
      = csvRowsAux ',' rest .startFld [] (r ++ [f]) := by
  by_cases hq : needsQuote f = true
  · rw [csvField, if_pos hq]
    have hsh : ('"' :: (escQuotes f ++ ['"'])) ++ ',' :: rest
        = '"' :: (escQuotes f ++ ('"' :: ',' :: rest)) := by simp
    rw [hsh]
    rw [show csvRowsAux ',' ('"' :: (escQuotes f ++ ('"' :: ',' :: rest))) .startFld [] r
        = csvRowsAux ',' (escQuotes f ++ ('"' :: ',' :: rest)) .inQuo [] r from rfl]
    rw [csvRowsAux_inQuo_consume hf]
    rw [show csvRowsAux ',' ('"' :: ',' :: rest) .inQuo ([] ++ f) r
        = csvRowsAux ',' (',' :: rest) .quoInQuo ([] ++ f) r from rfl]
    rw [show csvRowsAux ',' (',' :: rest) .quoInQuo ([] ++ f) r
        = csvRowsAux ',' rest .startFld [] (r ++ [[] ++ f]) from rfl]
    simp
  · rw [csvField, if_neg hq]
    cases f with
    | nil =>
      rw [show ([] : Str) ++ ',' :: rest = ',' :: rest from rfl]
      rw [show csvRowsAux ',' (',' :: rest) .startFld [] r
          = csvRowsAux ',' rest .startFld [] (r ++ [[]]) from rfl]
    | cons c t =>
      have hpl := plainChar_of_needsQuote (by simpa using hq) hf
      obtain ⟨h1, h2, h3, h4, h5⟩ := hpl c (List.mem_cons_self c t)
      rw [List.cons_append]
      rw [show csvRowsAux ',' (c :: (t ++ ',' :: rest)) .startFld [] r
          = csvRowsAux ',' (t ++ ',' :: rest) .inFld ([] ++ [c]) r from by
        simp only [csvRowsAux, if_neg h5, if_neg h4, if_neg h3, if_neg h2, if_neg h1]]
      rw [csvRowsAux_inFld_consume (fun x hx => hpl x (List.mem_cons_of_mem c hx))]
      rw [show csvRowsAux ',' (',' :: rest) .inFld (([] ++ [c]) ++ t) r
          = csvRowsAux ',' rest .startFld [] (r ++ [([] ++ [c]) ++ t]) from rfl]
      simp

theorem csvRowsAux_field_eol {f : Str} (hf : ∀ c ∈ f, c ≠ '\x00') (rest : Str) (r : List Str) :
    csvRowsAux ',' (csvField f ++ '\r' :: '\n' :: rest) .startFld [] r
      = ((r ++ [f]) :: (csvRows ',' rest).1, (csvRows ',' rest).2) := by
  by_cases hq : needsQuote f = true
  · rw [csvField, if_pos hq]
    have hsh : ('"' :: (escQuotes f ++ ['"'])) ++ '\r' :: '\n' :: rest
        = '"' :: (escQuotes f ++ ('"' :: '\r' :: '\n' :: rest)) := by simp
    rw [hsh]
    rw [show csvRowsAux ',' ('"' :: (escQuotes f ++ ('"' :: '\r' :: '\n' :: rest))) .startFld [] r
        = csvRowsAux ',' (escQuotes f ++ ('"' :: '\r' :: '\n' :: rest)) .inQuo [] r from rfl]
    rw [csvRowsAux_inQuo_consume hf]
    rw [show csvRowsAux ',' ('"' :: '\r' :: '\n' :: rest) .inQuo ([] ++ f) r
        = csvRowsAux ',' ('\r' :: '\n' :: rest) .quoInQuo ([] ++ f) r from rfl]
    rw [show csvRowsAux ',' ('\r' :: '\n' :: rest) .quoInQuo ([] ++ f) r
        = csvRowsAux ',' ('\n' :: rest) .eatCrnl [] (r ++ [[] ++ f]) from rfl]
    rw [show csvRowsAux ',' ('\n' :: rest) .eatCrnl [] (r ++ [[] ++ f])
        = ((r ++ [[] ++ f]) :: (csvRows ',' rest).1, (csvRows ',' rest).2) from rfl]
    simp
  · rw [csvField, if_neg hq]
    cases f with
    | nil =>
      rw [show ([] : Str) ++ '\r' :: '\n' :: rest = '\r' :: '\n' :: rest from rfl]
      rw [show csvRowsAux ',' ('\r' :: '\n' :: rest) .startFld [] r
          = csvRowsAux ',' ('\n' :: rest) .eatCrnl [] (r ++ [[]]) from rfl]
      rw [show csvRowsAux ',' ('\n' :: rest) .eatCrnl [] (r ++ [[]])
          = ((r ++ [[]]) :: (csvRows ',' rest).1, (csvRows ',' rest).2) from rfl]
    | cons c t =>
      have hpl := plainChar_of_needsQuote (by simpa using hq) hf
      obtain ⟨h1, h2, h3, h4, h5⟩ := hpl c (List.mem_cons_self c t)
      rw [List.cons_append]
      rw [show csvRowsAux ',' (c :: (t ++ '\r' :: '\n' :: rest)) .startFld [] r
          = csvRowsAux ',' (t ++ '\r' :: '\n' :: rest) .inFld ([] ++ [c]) r from by
        simp only [csvRowsAux, if_neg h5, if_neg h4, if_neg h3, if_neg h2, if_neg h1]]
      rw [csvRowsAux_inFld_consume (fun x hx => hpl x (List.mem_cons_of_mem c hx))]
      rw [show csvRowsAux ',' ('\r' :: '\n' :: rest) .inFld (([] ++ [c]) ++ t) r
          = csvRowsAux ',' ('\n' :: rest) .eatCrnl [] (r ++ [([] ++ [c]) ++ t]) from rfl]
      rw [show csvRowsAux ',' ('\n' :: rest) .eatCrnl [] (r ++ [([] ++ [c]) ++ t])
          = ((r ++ [([] ++ [c]) ++ t]) :: (csvRows ',' rest).1, (csvRows ',' rest).2) from rfl]
      simp

theorem csvRowsAux_field_sep_start {f : Str} (hf : ∀ c ∈ f, c ≠ '\x00') (rest : Str) :
    csvRowsAux ',' (csvField f ++ ',' :: rest) .startRec [] []
      = csvRowsAux ',' rest .startFld [] [f] := by
  by_cases hq : needsQuote f = true
  · rw [csvField, if_pos hq]
    have hsh : ('"' :: (escQuotes f ++ ['"'])) ++ ',' :: rest
        = '"' :: (escQuotes f ++ ('"' :: ',' :: rest)) := by simp
    rw [hsh]
    rw [show csvRowsAux ',' ('"' :: (escQuotes f ++ ('"' :: ',' :: rest))) .startRec [] []
        = csvRowsAux ',' (escQuotes f ++ ('"' :: ',' :: rest)) .inQuo [] [] from rfl]
    rw [csvRowsAux_inQuo_consume hf]
    rw [show csvRowsAux ',' ('"' :: ',' :: rest) .inQuo ([] ++ f) []
        = csvRowsAux ',' (',' :: rest) .quoInQuo ([] ++ f) [] from rfl]
    rw [show csvRowsAux ',' (',' :: rest) .quoInQuo ([] ++ f) []
        = csvRowsAux ',' rest .startFld [] ([] ++ [[] ++ f]) from rfl]
    simp
  · rw [csvField, if_neg hq]
    cases f with
    | nil =>
      rw [show ([] : Str) ++ ',' :: rest = ',' :: rest from rfl]
      rw [show csvRowsAux ',' (',' :: rest) .startRec [] []
          = csvRowsAux ',' rest .startFld [] ([] ++ [[]]) from rfl]
      simp
    | cons c t =>
      have hpl := plainChar_of_needsQuote (by simpa using hq) hf
      obtain ⟨h1, h2, h3, h4, h5⟩ := hpl c (List.mem_cons_self c t)
      rw [List.cons_append]
      rw [show csvRowsAux ',' (c :: (t ++ ',' :: rest)) .startRec [] []
          = csvRowsAux ',' (t ++ ',' :: rest) .inFld ([] ++ [c]) [] from by
        simp only [csvRowsAux, if_neg h5, if_neg h4, if_neg h3, if_neg h2, if_neg h1]]
      rw [csvRowsAux_inFld_consume (fun x hx => hpl x (List.mem_cons_of_mem c hx))]
      rw [show csvRowsAux ',' (',' :: rest) .inFld (([] ++ [c]) ++ t) []
          = csvRowsAux ',' rest .startFld [] ([] ++ [([] ++ [c]) ++ t]) from rfl]
      simp

theorem csvRowsAux_field_eol_start {f : Str} (hf : ∀ c ∈ f, c ≠ '\x00') (hfe : f ≠ [])
    (rest : Str) :
    csvRowsAux ',' (csvField f ++ '\r' :: '\n' :: rest) .startRec [] []
      = ([f] :: (csvRows ',' rest).1, (csvRows ',' rest).2) := by
  by_cases hq : needsQuote f = true
  · rw [csvField, if_pos hq]
    have hsh : ('"' :: (escQuotes f ++ ['"'])) ++ '\r' :: '\n' :: rest
        = '"' :: (escQuotes f ++ ('"' :: '\r' :: '\n' :: rest)) := by simp
    rw [hsh]
    rw [show csvRowsAux ',' ('"' :: (escQuotes f ++ ('"' :: '\r' :: '\n' :: rest))) .startRec [] []
        = csvRowsAux ',' (escQuotes f ++ ('"' :: '\r' :: '\n' :: rest)) .inQuo [] [] from rfl]
    rw [csvRowsAux_inQuo_consume hf]
    rw [show csvRowsAux ',' ('"' :: '\r' :: '\n' :: rest) .inQuo ([] ++ f) []
        = csvRowsAux ',' ('\n' :: rest) .eatCrnl [] ([] ++ [[] ++ f]) from rfl]
    rw [show csvRowsAux ',' ('\n' :: rest) .eatCrnl [] ([] ++ [[] ++ f])
        = (([] ++ [[] ++ f]) :: (csvRows ',' rest).1, (csvRows ',' rest).2) from rfl]
    simp
  · rw [csvField, if_neg hq]
    cases f with
    | nil => exact absurd rfl hfe
    | cons c t =>
      have hpl := plainChar_of_needsQuote (by simpa using hq) hf
      obtain ⟨h1, h2, h3, h4, h5⟩ := hpl c (List.mem_cons_self c t)
      rw [List.cons_append]
      rw [show csvRowsAux ',' (c :: (t ++ '\r' :: '\n' :: rest)) .startRec [] []
          = csvRowsAux ',' (t ++ '\r' :: '\n' :: rest) .inFld ([] ++ [c]) [] from by
        simp only [csvRowsAux, if_neg h5, if_neg h4, if_neg h3, if_neg h2, if_neg h1]]
      rw [csvRowsAux_inFld_consume (fun x hx => hpl x (List.mem_cons_of_mem c hx))]
      rw [show csvRowsAux ',' ('\r' :: '\n' :: rest) .inFld (([] ++ [c]) ++ t) []
          = csvRowsAux ',' ('\n' :: rest) .eatCrnl [] ([] ++ [([] ++ [c]) ++ t]) from rfl]
      rw [show csvRowsAux ',' ('\n' :: rest) .eatCrnl [] ([] ++ [([] ++ [c]) ++ t])
          = (([] ++ [([] ++ [c]) ++ t]) :: (csvRows ',' rest).1, (csvRows ',' rest).2) from rfl]
      simp

theorem csvRowsAux_fields {fs : List Str} (hne : fs ≠ [])
    (hf : ∀ g ∈ fs, ∀ c ∈ g, c ≠ '\x00') (rest : Str) (r : List Str) :
    csvRowsAux ',' (commaJoin (fs.map csvField) ++ '\r' :: '\n' :: rest) .startFld [] r
      = ((r ++ fs) :: (csvRows ',' rest).1, (csvRows ',' rest).2) := by
  induction fs generalizing r with
  | nil => exact absurd rfl hne
  | cons g gs ih =>
    cases gs with
    | nil =>
      rw [show commaJoin ([g].map csvField) = csvField g from rfl]
      rw [csvRowsAux_field_eol (hf g (by simp))]
    | cons g2 gs2 =>
      rw [show commaJoin ((g :: g2 :: gs2).map csvField)
          = csvField g ++ ',' :: commaJoin ((g2 :: gs2).map csvField) from rfl]
      rw [List.append_assoc]
      rw [show (',' :: commaJoin ((g2 :: gs2).map csvField)) ++ '\r' :: '\n' :: rest
          = ',' :: (commaJoin ((g2 :: gs2).map csvField) ++ '\r' :: '\n' :: rest) from rfl]
      rw [csvRowsAux_field_sep (hf g (by simp))]
      rw [ih (by simp) (fun x hx => hf x (by simp [hx])) (r ++ [g])]
      simp

theorem csvRows_rowOut {fs : List Str} (hne : fs ≠ []) (hne1 : fs ≠ [[]])
    (hf : ∀ g ∈ fs, ∀ c ∈ g, c ≠ '\x00') (rest : Str) :
    csvRows ',' (csvRowOut fs ++ rest)
      = (fs :: (csvRows ',' rest).1, (csvRows ',' rest).2) := by
  unfold csvRows
  rw [csvRowOut, if_neg hne1]
  cases fs with
  | nil => exact absurd rfl hne
  | cons g gs =>
    cases gs with
    | nil =>
      have hg0 : g ≠ [] := by
        intro h
        subst h
        exact hne1 rfl
      rw [show commaJoin ([g].map csvField) = csvField g from rfl]
      rw [List.append_assoc]
      rw [show ['\r', '\n'] ++ rest = '\r' :: '\n' :: rest from rfl]
      rw [csvRowsAux_field_eol_start (hf g (by simp)) hg0]
      rfl
    | cons g2 gs2 =>
      rw [show commaJoin ((g :: g2 :: gs2).map csvField)
          = csvField g ++ ',' :: commaJoin ((g2 :: gs2).map csvField) from rfl]
      rw [List.append_assoc, List.append_assoc]
      rw [show (',' :: commaJoin ((g2 :: gs2).map csvField)) ++ (['\r', '\n'] ++ rest)
          = ',' :: (commaJoin ((g2 :: gs2).map csvField) ++ '\r' :: '\n' :: rest) from by
        simp]
      rw [csvRowsAux_field_sep_start (hf g (by simp))]
      rw [csvRowsAux_fields (by simp) (fun x hx => hf x (by simp [hx])) rest [g]]
      simp
      exact ⟨rfl, rfl⟩

theorem csvRows_write {rows : List (List Str)}
    (h : ∀ row ∈ rows, row ≠ [] ∧ row ≠ [[]] ∧ ∀ g ∈ row, ∀ c ∈ g, c ≠ '\x00') :
    csvRows ',' (csvWrite rows) = (rows, none) := by
  induction rows with
  | nil => rfl
  | cons row rs ih =>
    obtain ⟨h1, h2, h3⟩ := h row (by simp)
    rw [show csvWrite (row :: rs) = csvRowOut row ++ csvWrite rs from by simp [csvWrite]]
    rw [csvRows_rowOut h1 h2 h3]
    rw [ih (fun x hx => h x (by simp [hx]))]

theorem csvRowsAux_nul {delim : Char} :
    ∀ (cs : Str), '\x00' ∈ cs → ∀ (st : CsvSt) (f : Str) (r : List Str),
      (csvRowsAux delim cs st f r).2.isSome := by
  intro cs
  induction cs with
  | nil => intro h; simp at h
  | cons a t ih =>
    intro h st f r
    by_cases ha : a = '\x00'
    · subst ha
      simp [csvRowsAux]
    · have hm : '\x00' ∈ t := by
        rcases List.mem_cons.mp h with h0 | h0
        · exact absurd h0.symm ha
        · exact h0
      cases st <;> simp only [csvRowsAux, if_neg ha] <;> split_ifs <;>
        first
          | rfl
          | exact ih hm _ _ _

theorem csvRowsAux_chars {C : Char → Prop} {delim : Char} :
    ∀ (cs : Str) (st : CsvSt) (f : Str) (r : List Str),
      (∀ c ∈ cs, C c) → (∀ c ∈ f, C c) → (∀ g ∈ r, ∀ c ∈ g, C c) →
      ∀ row ∈ (csvRowsAux delim cs st f r).1, ∀ g ∈ row, ∀ c ∈ g, C c := by
  intro cs
  induction cs with
  | nil =>
    intro st f r hcs hf hr row hrow g hg c hc
    have hrf : ∀ g ∈ r ++ [f], ∀ c ∈ g, C c := by
      intro g hg c hc
      rcases List.mem_append.mp hg with h | h
      · exact hr g h c hc
      · rw [List.mem_singleton] at h
        subst h
        exact hf c hc
    cases st <;> simp only [csvRowsAux] at hrow
    case startRec => simp at hrow
    case eatCrnl =>
      rw [List.mem_singleton] at hrow
      subst hrow
      exact hr g hg c hc
    all_goals
      rw [List.mem_singleton] at hrow
    all_goals
      subst hrow
    all_goals
      exact hrf g hg c hc
  | cons a t ih =>
    intro st f r hcs hf hr row hrow g hg c hc
    have hCa : C a := hcs a (List.mem_cons_self a t)
    have hcs' : ∀ x ∈ t, C x := fun x hx => hcs x (List.mem_cons_of_mem a hx)
    have hrf : ∀ g ∈ r ++ [f], ∀ c ∈ g, C c := by
      intro g hg c hc
      rcases List.mem_append.mp hg with h | h
      · exact hr g h c hc
      · rw [List.mem_singleton] at h
        subst h
        exact hf c hc
    have hfa : ∀ x ∈ f ++ [a], C x := by
      intro x hx
      rcases List.mem_append.mp hx with h | h
      · exact hf x h
      · rw [List.mem_singleton] at h
        subst h
        exact hCa
    have hnil : ∀ g ∈ ([] : List Str), ∀ c ∈ g, C c := by intro g hg; simp at hg
    have hfnil : ∀ x ∈ ([] : Str), C x := by intro x hx; simp at hx
    by_cases ha : a = '\x00'
    · subst ha
      simp only [csvRowsAux, if_pos rfl] at hrow
      simp at hrow
    · cases st <;> simp only [csvRowsAux, if_neg ha] at hrow <;> split_ifs at hrow with
        hb1 hb2 hb3 hb4
      all_goals
        first
          | exact absurd hrow (List.not_mem_nil row)
          | exact ih _ _ _ hcs' hf hr row hrow g hg c hc
          | exact ih _ _ _ hcs' hfnil hrf row hrow g hg c hc
          | exact ih _ _ _ hcs' hfa hr row hrow g hg c hc
          | exact (List.mem_cons.mp hrow).elim
              (fun he => by
                subst he
                first
                  | exact hrf g hg c hc
                  | exact hr g hg c hc
                  | simp at hg)
              (fun he => ih .startRec [] [] hcs' hfnil hnil row he g hg c hc)
          | exact hrow.elim
              (fun he => by
                subst he
                first
                  | exact hrf g hg c hc
                  | exact hr g hg c hc
                  | simp at hg)
              (fun he => ih .startRec [] [] hcs' hfnil hnil row he g hg c hc)
          | (exact ih _ _ _ hcs' (by
              intro x hx
              rcases List.mem_append.mp hx with h | h
              · exact hf x h
              · rw [List.mem_singleton] at h
                subst h
                subst hb1
                exact hCa) hr row hrow g hg c hc)

/-! Encoding lemmas and other plumbing. -/

theorem toNat_ofNat_lt {n : Nat} (h : n < 55296) : (Char.ofNat n).toNat = n := by
  unfold Char.ofNat
  rw [dif_pos (Or.inl h)]
  rfl

theorem latin1Decode_range (bs : List Byte) : ∀ c ∈ latin1Decode bs, c.toNat < 256 := by
  intro c hc
  unfold latin1Decode at hc
  obtain ⟨b, _, rfl⟩ := List.mem_map.mp hc
  have hb : b.val < 256 := b.isLt
  rw [toNat_ofNat_lt (by omega : b.val < 55296)]
  exact hb

theorem getElemOpt_mem {α : Type} {l : List α} {i : Nat} {a : α} (h : l[i]? = some a) :
    a ∈ l := by
  induction l generalizing i with
  | nil => simp at h
  | cons x t ih =>
    cases i with
    | zero =>
      simp only [List.getElem?_cons_zero, Option.some.injEq] at h
      subst h
      exact List.mem_cons_self x t
    | succ j =>
      rw [List.getElem?_cons_succ] at h
      exact List.mem_cons_of_mem x (ih h)

theorem latin1Encode_of_lt {t : Str} (h : ∀ c ∈ t, c.toNat < 256) :
    ∃ bs, latin1Encode t = some bs ∧ latin1Decode bs = t
      ∧ List.Forall₂ (fun (b : Byte) (c : Char) => b.val = c.toNat) bs t := by
  induction t with
  | nil => exact ⟨[], rfl, rfl, List.Forall₂.nil⟩
  | cons c cs ih =>
    have hc := h c (List.mem_cons_self c cs)
    obtain ⟨bs, hb1, hb2, hb3⟩ := ih (fun x hx => h x (List.mem_cons_of_mem c hx))
    refine ⟨⟨c.toNat, hc⟩ :: bs, ?_, ?_, ?_⟩
    · rw [show latin1Encode (c :: cs)
          = if hh : c.toNat < 256 then
              match latin1Encode cs with
              | some bs => some (⟨c.toNat, hh⟩ :: bs)
              | none => none
            else none from rfl]
      rw [dif_pos hc, hb1]
    · unfold latin1Decode
      simp only [List.map_cons]
      rw [show Char.ofNat (⟨c.toNat, hc⟩ : Byte).val = c from Char.ofNat_toNat c]
      unfold latin1Decode at hb2
      rw [hb2]
    · exact List.Forall₂.cons rfl hb3

theorem splitOnC_append_of {xs : Str} (h : '\n' ∉ xs) (ys : Str) :
    splitOnC '\n' (xs ++ '\n' :: ys) = xs :: splitOnC '\n' ys := by
  induction xs with
  | nil => simp [splitOnC]
  | cons c t ih =>
    have hc : ¬(c = '\n') := fun he => h (he ▸ List.mem_cons_self c t)
    rw [List.cons_append]
    rw [show splitOnC '\n' (c :: (t ++ '\n' :: ys))
        = match splitOnC '\n' (t ++ '\n' :: ys) with
          | [] => [[c]]
          | r :: rs => (c :: r) :: rs from by
      simp only [splitOnC, if_neg hc]]
    rw [ih (fun hm => h (List.mem_cons_of_mem c hm))]

theorem mem_escQuotes {c : Char} {f : Str} (h : c ∈ escQuotes f) : c ∈ f ∨ c = '"' := by
  induction f with
  | nil => simp [escQuotes] at h
  | cons a t ih =>
    by_cases ha : a = '"'
    · subst ha
      simp only [escQuotes, if_pos rfl] at h
      rcases List.mem_cons.mp h with rfl | h2
      · exact Or.inr rfl
      · rcases List.mem_cons.mp h2 with rfl | h3
        · exact Or.inr rfl
        · rcases ih h3 with h4 | h4
          · exact Or.inl (List.mem_cons_of_mem _ h4)
          · exact Or.inr h4
    · simp only [escQuotes, if_neg ha] at h
      rcases List.mem_cons.mp h with rfl | h2
      · exact Or.inl (List.mem_cons_self _ _)
      · rcases ih h2 with h4 | h4
        · exact Or.inl (List.mem_cons_of_mem _ h4)
        · exact Or.inr h4

theorem mem_csvField {c : Char} {f : Str} (h : c ∈ csvField f) : c ∈ f ∨ c = '"' := by
  unfold csvField at h
  split_ifs at h
  · rcases List.mem_cons.mp h with rfl | h2
    · exact Or.inr rfl
    · rcases List.mem_append.mp h2 with h3 | h3
      · exact mem_escQuotes h3
      · rw [List.mem_singleton] at h3
        exact Or.inr h3
  · exact Or.inl h

theorem mem_commaJoin {c : Char} {fs : List Str} (h : c ∈ commaJoin fs) :
    (∃ f ∈ fs, c ∈ f) ∨ c = ',' := by
  induction fs with
  | nil => simp [commaJoin] at h
  | cons f gs ih =>
    cases gs with
    | nil =>
      exact Or.inl ⟨f, List.mem_cons_self f [], by simpa [commaJoin] using h⟩
    | cons g2 gs2 =>
      rw [show commaJoin (f :: g2 :: gs2) = f ++ ',' :: commaJoin (g2 :: gs2) from rfl] at h
      rcases List.mem_append.mp h with h2 | h2
      · exact Or.inl ⟨f, List.mem_cons_self _ _, h2⟩
      · rcases List.mem_cons.mp h2 with rfl | h3
        · exact Or.inr rfl
        · rcases ih h3 with ⟨g, hg, hcg⟩ | h4
          · exact Or.inl ⟨g, List.mem_cons_of_mem _ hg, hcg⟩
          · exact Or.inr h4

theorem mem_csvRowOut {c : Char} {fs : List Str} (h : c ∈ csvRowOut fs) :
    (∃ f ∈ fs, c ∈ f) ∨ c = ',' ∨ c = '"' ∨ c = '\r' ∨ c = '\n' := by
  unfold csvRowOut at h
  split_ifs at h
  · simp only [List.mem_cons] at h
    rcases h with rfl | rfl | rfl | rfl | h <;> simp_all
  · rcases List.mem_append.mp h with h2 | h2
    · rcases mem_commaJoin h2 with ⟨g, hg, hcg⟩ | h3
      · obtain ⟨f, hf, rfl⟩ := List.mem_map.mp hg
        rcases mem_csvField hcg with h4 | h4
        · exact Or.inl ⟨f, hf, h4⟩
        · exact Or.inr (Or.inr (Or.inl h4))
      · exact Or.inr (Or.inl h3)
    · simp only [List.mem_cons] at h2
      rcases h2 with rfl | rfl | h3 <;> simp_all

theorem mem_csvWrite {c : Char} {rows : List (List Str)} (h : c ∈ csvWrite rows) :
    (∃ row ∈ rows, ∃ f ∈ row, c ∈ f) ∨ c = ',' ∨ c = '"' ∨ c = '\r' ∨ c = '\n' := by
  induction rows with
  | nil => simp [csvWrite] at h
  | cons row rs ih =>
    rw [show csvWrite (row :: rs) = csvRowOut row ++ csvWrite rs from by simp [csvWrite]] at h
    rcases List.mem_append.mp h with h2 | h2
    · rcases mem_csvRowOut h2 with ⟨f, hf, hcf⟩ | h3
      · exact Or.inl ⟨row, List.mem_cons_self _ _, f, hf, hcf⟩
      · exact Or.inr h3
    · rcases ih h2 with ⟨r2, hr2, f, hf, hcf⟩ | h3
      · exact Or.inl ⟨r2, List.mem_cons_of_mem _ hr2, f, hf, hcf⟩
      · exact Or.inr h3

/-! Lemmas about the DictReader lookup and the row loop. -/

theorem dictGet_mem {fns vals : List Str} {k v : Str}
    (h : dictGet fns vals k = some (some v)) : v ∈ vals := by
  unfold dictGet at h
  rcases hi : lastIdxOf k fns with _ | i <;> simp only [hi] at h
  · exact Option.noConfusion h
  · exact getElemOpt_mem (Option.some.inj h)

theorem dictGetD_mem {fns vals : List Str} {k v : Str}
    (h : dictGetD fns vals k = some v) : v = [] ∨ v ∈ vals := by
  unfold dictGetD at h
  rcases hg : dictGet fns vals k with _ | w <;> simp only [hg] at h
  · exact Or.inl (Option.some.inj h).symm
  · cases w with
    | none => exact Option.noConfusion h
    | some w0 =>
      cases Option.some.inj h
      exact Or.inr (dictGet_mem hg)

theorem parseLoop_blank (proc : Nat → List Str → Except Str (Option ParsedTransaction))
    (n : Nat) (rest : List (List Str)) (e : Option Str) :
    parseLoop proc n ([] :: rest) e = parseLoop proc n rest e := by
  conv_lhs => unfold parseLoop
  rw [if_pos rfl]

theorem parseLoop_skip {proc : Nat → List Str → Except Str (Option ParsedTransaction)}
    {n : Nat} {vals : List Str} (rest : List (List Str)) (e : Option Str)
    (hv : vals ≠ []) (hp : proc n vals = .ok none) :
    parseLoop proc n (vals :: rest) e = parseLoop proc (n + 1) rest e := by
  conv_lhs => unfold parseLoop
  rw [if_neg hv, hp]

theorem parseLoop_err {proc : Nat → List Str → Except Str (Option ParsedTransaction)}
    {n : Nat} {vals : List Str} {m : Str} (rest : List (List Str)) (e : Option Str)
    (hv : vals ≠ []) (hp : proc n vals = .error m) :
    parseLoop proc n (vals :: rest) e = .error m := by
  conv_lhs => unfold parseLoop
  rw [if_neg hv, hp]

theorem parseLoop_ok_eOpt (proc : Nat → List Str → Except Str (Option ParsedTransaction)) :
    ∀ (rows : List (List Str)) (n : Nat) (e : Option Str) (ts : List ParsedTransaction),
      parseLoop proc n rows e = .ok ts → e = none := by
  intro rows
  induction rows with
  | nil =>
    intro n e ts h
    cases e with
    | none => rfl
    | some m => simp [parseLoop] at h
  | cons vals rest ih =>
    intro n e ts h
    unfold parseLoop at h
    by_cases hv : vals = []
    · rw [if_pos hv] at h
      exact ih n e ts h
    · rw [if_neg hv] at h
      rcases hp : proc n vals with m | ot <;> simp only [hp] at h
      · exact Except.noConfusion h
      · cases ot with
        | none => exact ih (n + 1) e ts h
        | some t0 =>
          rcases hr : parseLoop proc (n + 1) rest e with m | ts2 <;> simp only [hr] at h
          · exact Except.noConfusion h
          · exact ih (n + 1) e ts2 hr

theorem parseLoop_mem (proc : Nat → List Str → Except Str (Option ParsedTransaction)) :
    ∀ (rows : List (List Str)) (n : Nat) (e : Option Str) (ts : List ParsedTransaction),
      parseLoop proc n rows e = .ok ts →
      ∀ t ∈ ts, ∃ k vals, vals ∈ rows ∧ proc k vals = .ok (some t) := by
  intro rows
  induction rows with
  | nil =>
    intro n e ts h t ht
    cases e with
    | none =>
      unfold parseLoop at h
      cases Except.ok.inj h
      simp at ht
    | some m => simp [parseLoop] at h
  | cons vals rest ih =>
    intro n e ts h t ht
    unfold parseLoop at h
    by_cases hv : vals = []
    · rw [if_pos hv] at h
      obtain ⟨k, w, hw, hp⟩ := ih n e ts h t ht
      exact ⟨k, w, List.mem_cons_of_mem _ hw, hp⟩
    · rw [if_neg hv] at h
      rcases hp : proc n vals with m | ot <;> simp only [hp] at h
      · exact Except.noConfusion h
      · cases ot with
        | none =>
          obtain ⟨k, w, hw, hq⟩ := ih (n + 1) e ts h t ht
          exact ⟨k, w, List.mem_cons_of_mem _ hw, hq⟩
        | some t0 =>
          rcases hr : parseLoop proc (n + 1) rest e with m | ts2 <;> simp only [hr] at h
          · exact Except.noConfusion h
          · cases Except.ok.inj h
            rcases List.mem_cons.mp ht with rfl | ht2
            · exact ⟨n, vals, List.mem_cons_self _ _, hp⟩
            · obtain ⟨k, w, hw, hq⟩ := ih (n + 1) e ts2 hr t ht2
              exact ⟨k, w, List.mem_cons_of_mem _ hw, hq⟩

theorem dropToFirstRow_subset :
    ∀ {rows rest : List (List Str)}, dropToFirstRow rows = some rest →
      ∀ r ∈ rest, r ∈ rows := by
  intro rows
  induction rows with
  | nil => intro rest h; simp [dropToFirstRow] at h
  | cons r0 rs ih =>
    intro rest h x hx
    unfold dropToFirstRow at h
    by_cases h0 : r0 = []
    · rw [if_pos h0] at h
      exact List.mem_cons_of_mem _ (ih h x hx)
    · rw [if_neg h0] at h
      cases Option.some.inj h
      exact List.mem_cons_of_mem _ hx

/-! Structure lemmas for the two `parse` entry points. -/

theorem aceParse_ok {bs : List Byte} {ts : List ParsedTransaction}
    (h : aceParse bs = .ok ts) :
    aceValidate bs = [] ∧ aceRun (latin1Decode bs) = .ok ts ∧ ts ≠ [] := by
  unfold aceParse at h
  rcases hv : aceValidate bs with _ | ⟨e, es⟩ <;> simp only [hv] at h
  · rcases hr : aceRun (latin1Decode bs) with m | ts2 <;> simp only [hr] at h
    · exact Except.noConfusion h
    · by_cases hts : ts2 = []
      · rw [if_pos hts] at h
        exact Except.noConfusion h
      · rw [if_neg hts] at h
        cases Except.ok.inj h
        exact ⟨rfl, rfl, hts⟩
  · exact Except.noConfusion h

theorem aceRun_ok {text : Str} {ts : List ParsedTransaction}
    (h : aceRun text = .ok ts) :
    ∃ hdr rest,
      firstRec ',' ((splitOnC '\n' text).headD []) = .ok hdr
      ∧ dropToFirstRow (csvRows ',' text).1 = some rest
      ∧ parseLoop (aceProcessRow (hdr.map normHeader)) 2 rest (csvRows ',' text).2 = .ok ts := by
  unfold aceRun at h
  rcases hf : firstRec ',' ((splitOnC '\n' text).headD []) with m | hdr <;> simp only [hf] at h
  · exact Except.noConfusion h
  · rcases hd : dropToFirstRow (csvRows ',' text).1 with _ | rest <;> simp only [hd] at h
    · cases he : (csvRows ',' text).2 <;> simp only [he] at h <;> exact Except.noConfusion h
    · exact ⟨hdr, rest, rfl, rfl, h⟩

theorem danskeParse_ok {bs : List Byte} {ts : List ParsedTransaction}
    (h : danskeParse bs = .ok ts) :
    danskeValidate bs = [] ∧ danskeRun (danskeDecode bs) = .ok ts ∧ ts ≠ [] := by
  unfold danskeParse at h
  rcases hv : danskeValidate bs with _ | ⟨e, es⟩ <;> simp only [hv] at h
  · rcases hr : danskeRun (danskeDecode bs) with m | ts2 <;> simp only [hr] at h
    · exact Except.noConfusion h
    · by_cases hts : ts2 = []
      · rw [if_pos hts] at h
        exact Except.noConfusion h
      · rw [if_neg hts] at h
        cases Except.ok.inj h
        exact ⟨rfl, rfl, hts⟩
  · exact Except.noConfusion h

theorem danskeRun_ok {text : Str} {ts : List ParsedTransaction}
    (h : danskeRun text = .ok ts) :
    ∃ fns rest ac,
      (csvRows ';' text).1 = fns :: rest
      ∧ fns.find? (fun f => (("Bel").toList).isPrefixOf (stripQuotes (pyStrip f))) = some ac
      ∧ parseLoop (danskeProcessRow fns ac) 2 rest (csvRows ';' text).2 = .ok ts := by
  unfold danskeRun at h
  rcases hp : (csvRows ';' text).1 with _ | ⟨fns, rest⟩ <;> simp only [hp] at h
  · cases he : (csvRows ';' text).2 <;> simp only [he] at h <;> exact Except.noConfusion h
  · rcases hf : fns.find? (fun f => (("Bel").toList).isPrefixOf (stripQuotes (pyStrip f)))
        with _ | ac <;> simp only [hf] at h
    · exact Except.noConfusion h
    · exact ⟨fns, rest, ac, rfl, hf, h⟩

/-! Characterization of a successfully converted row. -/

theorem aceProcessRow_ok_inv {fns : List Str} {n : Nat} {vals : List Str}
    {t : ParsedTransaction} (h : aceProcessRow fns n vals = .ok (some t)) :
    ∃ v rawDate rawPayee rawW rawD rawC rawCom,
      dictGet fns vals (("date").toList) = some (some rawDate)
      ∧ parseAceDate (pyStrip rawDate) = some v
      ∧ dictGet fns vals (("payee").toList) = some (some rawPayee)
      ∧ dictGet fns vals (("withdrawal").toList) = some (some rawW)
      ∧ dictGet fns vals (("deposit").toList) = some (some rawD)
      ∧ dictGetD fns vals (("category").toList) = some rawC
      ∧ dictGetD fns vals (("comment").toList) = some rawCom
      ∧ t.date = isoFmt v
      ∧ t.payee = pyStrip rawPayee
      ∧ t.payee ≠ []
      ∧ t.original_category = pyStrip rawC
      ∧ t.original_comment = pyStrip rawCom
      ∧ ((pyStrip rawW ≠ [] ∧ pyStrip rawD = []
            ∧ ∃ x, floatVal (pyStrip rawW) = some x ∧ t.amount = -x)
         ∨ (pyStrip rawW = [] ∧ pyStrip rawD ≠ []
            ∧ ∃ x, floatVal (pyStrip rawD) = some x ∧ t.amount = x)) := by
  unfold aceProcessRow at h
  rcases h1 : dictGet fns vals (("date").toList) with _ | od <;> simp only [h1] at h
  · exact Except.noConfusion h
  cases od with
  | none => exact Except.noConfusion h
  | some rawDate =>
  rcases h2 : parseAceDate (pyStrip rawDate) with _ | v <;> simp only [h2] at h
  · exact Except.noConfusion h
  rcases h3 : dictGet fns vals (("payee").toList) with _ | op <;> simp only [h3] at h
  · exact Except.noConfusion h
  cases op with
  | none => exact Except.noConfusion h
  | some rawPayee =>
  simp only [] at h
  by_cases hp : pyStrip rawPayee = []
  · rw [if_pos hp] at h
    exact Except.noConfusion h
  rw [if_neg hp] at h
  rcases h4 : dictGet fns vals (("withdrawal").toList) with _ | ow <;> simp only [h4] at h
  · exact Except.noConfusion h
  cases ow with
  | none => exact Except.noConfusion h
  | some rawW =>
  rcases h5 : dictGet fns vals (("deposit").toList) with _ | odp <;> simp only [h5] at h
  · exact Except.noConfusion h
  cases odp with
  | none => exact Except.noConfusion h
  | some rawD =>
  simp only [] at h
  by_cases hw : pyStrip rawW = []
  · rw [if_neg (fun hc => hc.1 hw), if_neg (fun hc => hc hw)] at h
    by_cases hd : pyStrip rawD = []
    · rw [if_neg (fun hc => hc hd)] at h
      simp at h
    · rw [if_pos hd] at h
      rcases h6 : floatVal (pyStrip rawD) with _ | x <;> simp only [h6] at h
      · exact Except.noConfusion h
      unfold aceFinishRow at h
      rcases h7 : dictGetD fns vals (("category").toList) with _ | rawC <;> simp only [h7] at h
      · exact Except.noConfusion h
      rcases h8 : dictGetD fns vals (("comment").toList) with _ | rawCom <;> simp only [h8] at h
      · exact Except.noConfusion h
      cases Option.some.inj (Except.ok.inj h)
      exact ⟨v, rawDate, rawPayee, rawW, rawD, rawC, rawCom, rfl, h2, rfl, rfl, rfl, rfl, rfl,
        rfl, rfl, hp, rfl, rfl, Or.inr ⟨hw, hd, x, h6, rfl⟩⟩
  · by_cases hd : pyStrip rawD = []
    · rw [if_neg (fun hc => hc.2 hd), if_pos hw] at h
      rcases h6 : floatVal (pyStrip rawW) with _ | x <;> simp only [h6] at h
      · exact Except.noConfusion h
      unfold aceFinishRow at h
      rcases h7 : dictGetD fns vals (("category").toList) with _ | rawC <;> simp only [h7] at h
      · exact Except.noConfusion h
      rcases h8 : dictGetD fns vals (("comment").toList) with _ | rawCom <;> simp only [h8] at h
      · exact Except.noConfusion h
      cases Option.some.inj (Except.ok.inj h)
      exact ⟨v, rawDate, rawPayee, rawW, rawD, rawC, rawCom, rfl, h2, rfl, rfl, rfl, rfl, rfl,
        rfl, rfl, hp, rfl, rfl, Or.inl ⟨hw, hd, x, h6, rfl⟩⟩
    · rw [if_pos ⟨hw, hd⟩] at h
      exact Except.noConfusion h

theorem danskeProcessRow_ok_inv {fns : List Str} {ac : Str} {n : Nat} {vals : List Str}
    {t : ParsedTransaction} (h : danskeProcessRow fns ac n vals = .ok (some t)) :
    ∃ v rawDato rawTekst rawAmt x,
      dictGet fns vals (("Dato").toList) = some (some rawDato)
      ∧ strptimeDMY '.' (stripQuotes (pyStrip rawDato)) = some v
      ∧ dictGet fns vals (("Tekst").toList) = some (some rawTekst)
      ∧ dictGet fns vals ac = some (some rawAmt)
      ∧ stripQuotes (pyStrip rawAmt) ≠ []
      ∧ floatVal (danskeConv (stripQuotes (pyStrip rawAmt))) = some x
      ∧ t = ⟨isoFmt v, stripQuotes (pyStrip rawTekst), x, [], []⟩ := by
  unfold danskeProcessRow at h
  rcases h1 : dictGet fns vals (("Dato").toList) with _ | od <;> simp only [h1] at h
  · exact Except.noConfusion h
  cases od with
  | none => exact Except.noConfusion h
  | some rawDato =>
  rcases h2 : strptimeDMY '.' (stripQuotes (pyStrip rawDato)) with _ | v <;> simp only [h2] at h
  · exact Except.noConfusion h
  rcases h3 : dictGet fns vals (("Tekst").toList) with _ | op <;> simp only [h3] at h
  · exact Except.noConfusion h
  cases op with
  | none => exact Except.noConfusion h
  | some rawTekst =>
  simp only [] at h
  by_cases hp : stripQuotes (pyStrip rawTekst) = []
  · rw [if_pos hp] at h
    exact Except.noConfusion h
  rw [if_neg hp] at h
  rcases h4 : dictGet fns vals ac with _ | oa <;> simp only [h4] at h
  · exact Except.noConfusion h
  cases oa with
  | none => exact Except.noConfusion h
  | some rawAmt =>
  simp only [] at h
  by_cases ha : stripQuotes (pyStrip rawAmt) = []
  · rw [if_pos ha] at h
    simp at h
  rw [if_neg ha] at h
  rcases h6 : floatVal (danskeConv (stripQuotes (pyStrip rawAmt))) with _ | x <;>
    simp only [h6] at h
  · exact Except.noConfusion h
  cases Option.some.inj (Except.ok.inj h)
  exact ⟨v, rawDato, rawTekst, rawAmt, x, rfl, h2, rfl, rfl, ha, h6, rfl⟩

/-! Forward computation of the skip and both-columns outcomes of a row. -/

theorem aceProcessRow_skip {fns : List Str} {vals : List Str}
    {rawDate rawPayee rawW rawD : Str} {v : YMD} (n : Nat)
    (h1 : dictGet fns vals (("date").toList) = some (some rawDate))
    (h2 : parseAceDate (pyStrip rawDate) = some v)
    (h3 : dictGet fns vals (("payee").toList) = some (some rawPayee))
    (hp : pyStrip rawPayee ≠ [])
    (h4 : dictGet fns vals (("withdrawal").toList) = some (some rawW))
    (h5 : dictGet fns vals (("deposit").toList) = some (some rawD))
    (hw : pyStrip rawW = []) (hd : pyStrip rawD = []) :
    aceProcessRow fns n vals = .ok none := by
  unfold aceProcessRow
  simp only [h1, h2, h3, h4, h5]
  rw [if_neg hp,
    if_neg (fun hc : pyStrip rawW ≠ [] ∧ pyStrip rawD ≠ [] => hc.1 hw),
    if_neg (fun hc : pyStrip rawW ≠ [] => hc hw),
    if_neg (fun hc : pyStrip rawD ≠ [] => hc hd)]

theorem aceProcessRow_both {fns : List Str} {vals : List Str}
    {rawDate rawPayee rawW rawD : Str} {v : YMD} (n : Nat)
    (h1 : dictGet fns vals (("date").toList) = some (some rawDate))
    (h2 : parseAceDate (pyStrip rawDate) = some v)
    (h3 : dictGet fns vals (("payee").toList) = some (some rawPayee))
    (hp : pyStrip rawPayee ≠ [])
    (h4 : dictGet fns vals (("withdrawal").toList) = some (some rawW))
    (h5 : dictGet fns vals (("deposit").toList) = some (some rawD))
    (hw : pyStrip rawW ≠ []) (hd : pyStrip rawD ≠ []) :
    aceProcessRow fns n vals = .error (rowMsg n bothColsMsg) := by
  unfold aceProcessRow
  simp only [h1, h2, h3, h4, h5]
  rw [if_neg hp, if_pos ⟨hw, hd⟩]

/-! Helper lemmas for the round trip. -/

theorem requant_bound (a : ℚ) : |a - requant a| ≤ 1 / 200 := by
  unfold requant
  by_cases ha : a < 0
  · rw [if_pos ha]
    have := mkRat100_bound (-a)
    calc |a - -(mkRat (round2 (-a)) 100 : ℚ)| = |-a - (mkRat (round2 (-a)) 100 : ℚ)| := by
          rw [show a - -(mkRat (round2 (-a)) 100 : ℚ) = -(-a - (mkRat (round2 (-a)) 100 : ℚ)) from by ring, abs_neg]
      _ ≤ 1 / 200 := this
  · rw [if_neg ha]
    exact mkRat100_bound a

theorem goodChar_of_digitish {c : Char} (h : isDig c = true ∨ c = '.') : goodChar c := by
  rcases h with h | h
  · obtain ⟨h1, h2⟩ := isDig_range h
    refine ⟨by omega, fun he => ?_⟩
    subst he
    simp at h1
  · subst h
    exact ⟨by decide, by decide⟩

theorem dmyFmt_chars (v : YMD) : ∀ c ∈ dmyFmt v, isDig c = true ∨ c = '.' := by
  intro c hc
  unfold dmyFmt at hc
  simp only [List.mem_append, List.mem_cons] at hc
  have h : c ∈ pad2 v.d ∨ c = '.' ∨ c ∈ pad2 v.m ∨ c ∈ pad4 v.y := by tauto
  rcases h with h | h | h | h
  · exact Or.inl (pad2_digits v.d c h)
  · exact Or.inr h
  · exact Or.inl (pad2_digits v.m c h)
  · exact Or.inl (pad4_digits v.y c h)

theorem pyStrip_dmyFmt (v : YMD) : pyStrip (dmyFmt v) = dmyFmt v :=
  pyStrip_eq_self_of (fun c hc => pyWs_of_digitish (dmyFmt_chars v c hc))

theorem fmt2_goodChars (q : ℚ) : ∀ c ∈ fmt2 q, goodChar c :=
  fun c hc => goodChar_of_digitish (fmt2_chars q c hc)

theorem dmyFmt_goodChars (v : YMD) : ∀ c ∈ dmyFmt v, goodChar c :=
  fun c hc => goodChar_of_digitish (dmyFmt_chars v c hc)

theorem forall₂_mem_right {α β : Type} {R : α → β → Prop} :
    ∀ {as : List α} {bs : List β}, List.Forall₂ R as bs → ∀ b ∈ bs, ∃ a ∈ as, R a b := by
  intro as bs h
  induction h with
  | nil => intro b hb; simp at hb
  | cons hx hrest ih =>
    intro b hb
    rcases List.mem_cons.mp hb with rfl | hb2
    · exact ⟨_, List.mem_cons_self _ _, hx⟩
    · obtain ⟨a, ha, hr⟩ := ih b hb2
      exact ⟨a, List.mem_cons_of_mem _ ha, hr⟩

theorem forall₂_map_left {α β γ : Type} {R : γ → β → Prop} {f : α → γ} :
    ∀ {as : List α} {bs : List β}, List.Forall₂ R (as.map f) bs →
      List.Forall₂ (fun a b => R (f a) b) as bs := by
  intro as
  induction as with
  | nil =>
    intro bs h
    cases h
    exact List.Forall₂.nil
  | cons a t ih =>
    intro bs h
    rw [List.map_cons] at h
    cases h with
    | cons hx hrest => exact List.Forall₂.cons hx (ih hrest)

theorem emptyCheck_cons_false {b : Byte} {rest : List Byte} (h : b.val = 116) :
    emptyCheck (b :: rest) = false := by
  unfold emptyCheck
  rw [List.all_cons]
  simp [h]

theorem map_ne_nil {α β : Type} {f : α → β} {l : List α} (h : l ≠ []) : l.map f ≠ [] := by
  cases l with
  | nil => exact absurd rfl h
  | cons x t => simp

/-! Reparse of one generated row. -/

theorem aceProcessRow_reparse {v : YMD} (hv : validYMD v) {payee cat note : Str}
    (hp : pyStrip payee = payee) (hpne : payee ≠ [])
    (hc : pyStrip cat = cat) (hn : pyStrip note = note)
    (a : ℚ) (n : Nat) :
    aceProcessRow aceExpected n [[], dmyFmt v, payee, cat, [], genW a, genD a, [], note]
      = .ok (some ⟨isoFmt v, payee, requant a, cat, note⟩) := by
  have hd1 : dictGet aceExpected [[], dmyFmt v, payee, cat, [], genW a, genD a, [], note]
      (("date").toList) = some (some (dmyFmt v)) := rfl
  have hd3 : dictGet aceExpected [[], dmyFmt v, payee, cat, [], genW a, genD a, [], note]
      (("payee").toList) = some (some payee) := rfl
  have hd4 : dictGet aceExpected [[], dmyFmt v, payee, cat, [], genW a, genD a, [], note]
      (("withdrawal").toList) = some (some (genW a)) := rfl
  have hd5 : dictGet aceExpected [[], dmyFmt v, payee, cat, [], genW a, genD a, [], note]
      (("deposit").toList) = some (some (genD a)) := rfl
  have hg1 : dictGetD aceExpected [[], dmyFmt v, payee, cat, [], genW a, genD a, [], note]
      (("category").toList) = some cat := rfl
  have hg2 : dictGetD aceExpected [[], dmyFmt v, payee, cat, [], genW a, genD a, [], note]
      (("comment").toList) = some note := rfl
  have hnil : pyStrip ([] : Str) = [] := rfl
  unfold aceProcessRow aceFinishRow
  simp only [hd1, hd3, hd4, hd5, hg1, hg2, pyStrip_dmyFmt, parseAceDate_dmyFmt hv, hp, hc, hn]
  rw [if_neg hpne]
  by_cases ha : a < 0
  · have hw : genW a = fmt2 (-a) := by rw [genW, if_pos ha]
    have hd : genD a = [] := by rw [genD, if_pos ha]
    have h0 : (0 : ℚ) ≤ -a := by linarith
    simp only [hw, hd, pyStrip_fmt2, hnil]
    rw [if_neg (fun hcond : fmt2 (-a) ≠ [] ∧ ([] : Str) ≠ [] => hcond.2 rfl)]
    rw [if_pos (fmt2_ne_nil (-a))]
    simp only [floatVal_fmt2 (-a) (round2_nonneg h0)]
    rw [show requant a = -(mkRat (round2 (-a)) 100 : ℚ) from by rw [requant, if_pos ha]]
  · have hw : genW a = [] := by rw [genW, if_neg ha]
    have hd : genD a = fmt2 a := by rw [genD, if_neg ha]
    have h0 : (0 : ℚ) ≤ a := by linarith
    simp only [hw, hd, pyStrip_fmt2, hnil]
    rw [if_neg (fun hcond : ([] : Str) ≠ [] ∧ fmt2 a ≠ [] => hcond.1 rfl)]
    rw [if_neg (fun hcond : ([] : Str) ≠ [] => hcond rfl)]
    rw [if_pos (fmt2_ne_nil a)]
    simp only [floatVal_fmt2 a (round2_nonneg h0)]
    rw [show requant a = (mkRat (round2 a) 100 : ℚ) from by rw [requant, if_neg ha]]

theorem parseLoop_reparse (proc : Nat → List Str → Except Str (Option ParsedTransaction)) :
    ∀ {rows : List (List Str)} {ts : List ParsedTransaction},
      List.Forall₂ (fun row t => row ≠ [] ∧ ∀ k, proc k row = .ok (some t)) rows ts →
      ∀ n, parseLoop proc n rows none = .ok ts := by
  intro rows ts h
  induction h with
  | nil => intro n; rfl
  | cons hx hrest ih =>
    intro n
    conv_lhs => unfold parseLoop
    rw [if_neg hx.1, hx.2 n, ih (n + 1)]

theorem genRowsAux_rel :
    ∀ (txns : List ExportTx), (∀ t ∈ txns, ∃ v, isoParse t.date = some v) →
      ∃ rows, genRowsAux txns = .ok rows ∧
        List.Forall₂ (fun (t : ExportTx) cells => ∃ v, isoParse t.date = some v ∧
          cells = [[], dmyFmt v, t.payee, t.category, [], genW t.amount, genD t.amount, [],
            t.note]) txns rows := by
  intro txns
  induction txns with
  | nil => exact fun _ => ⟨[], rfl, List.Forall₂.nil⟩
  | cons t ts ih =>
    intro h
    obtain ⟨v, hv⟩ := h t (List.mem_cons_self t ts)
    obtain ⟨rows, hr1, hr2⟩ := ih (fun x hx => h x (List.mem_cons_of_mem t hx))
    refine ⟨[[], dmyFmt v, t.payee, t.category, [], genW t.amount, genD t.amount, [], t.note]
      :: rows, ?_, List.Forall₂.cons ⟨v, hv, rfl⟩ hr2⟩
    unfold genRowsAux genRowCells
    simp only [hv, hr1]

theorem genW_goodChars (a : ℚ) : ∀ c ∈ genW a, goodChar c := by
  unfold genW
  split_ifs
  · exact fmt2_goodChars (-a)
  · intro c hc; simp at hc

theorem genD_goodChars (a : ℚ) : ∀ c ∈ genD a, goodChar c := by
  unfold genD
  split_ifs
  · intro c hc; simp at hc
  · exact fmt2_goodChars a

theorem forall₂_and_left {α β : Type} {R : α → β → Prop} {P : α → Prop} :
    ∀ {as : List α} {bs : List β}, List.Forall₂ R as bs → (∀ a ∈ as, P a) →
      List.Forall₂ (fun a b => P a ∧ R a b) as bs := by
  intro as bs h
  induction h with
  | nil => exact fun _ => .nil
  | cons hx hrest ih =>
    intro hp
    exact .cons ⟨hp _ (List.mem_cons_self _ _), hx⟩
      (ih (fun a ha => hp a (List.mem_cons_of_mem _ ha)))

theorem forall₂_flip_map {α β γ : Type} {R : α → β → Prop} {S : β → γ → Prop} {f : α → γ}
    (h : ∀ a b, R a b → S b (f a)) :
    ∀ {as : List α} {bs : List β}, List.Forall₂ R as bs → List.Forall₂ S bs (as.map f) := by
  intro as bs hf
  induction hf with
  | nil => exact .nil
  | cons hx hrest ih => exact .cons (h _ _ hx) ih

/-- Everything `AceMoneyParser.parse` guarantees about each record it returns:
the date is a printed valid calendar date, payee, category and comment are
already-stripped text (payee non-empty), and all their characters decode from
latin-1 input that passed the csv reader, so they are latin-1 clean and free
of NUL. -/
theorem aceParse_ok_inv {bs : List Byte} {ts : List ParsedTransaction}
    (h : aceParse bs = .ok ts) :
    ts ≠ [] ∧ ∀ t ∈ ts,
      (∃ v, validYMD v ∧ t.date = isoFmt v)
      ∧ pyStrip t.payee = t.payee ∧ t.payee ≠ []
      ∧ pyStrip t.original_category = t.original_category
      ∧ pyStrip t.original_comment = t.original_comment
      ∧ (∀ c ∈ t.payee, goodChar c)
      ∧ (∀ c ∈ t.original_category, goodChar c)
      ∧ (∀ c ∈ t.original_comment, goodChar c) := by
  obtain ⟨hval, hrun, htsne⟩ := aceParse_ok h
  obtain ⟨hdr, rest, hfirst, hdrop, hloop⟩ := aceRun_ok hrun
  refine ⟨htsne, ?_⟩
  intro t ht
  have heopt := parseLoop_ok_eOpt _ _ _ _ _ hloop
  have hnul : ∀ c ∈ latin1Decode bs, c ≠ '\x00' := by
    intro c hc he
    subst he
    have h2 : (csvRows ',' (latin1Decode bs)).2.isSome :=
      csvRowsAux_nul (latin1Decode bs) hc .startRec [] []
    rw [heopt] at h2
    simp at h2
  have hgood : ∀ c ∈ latin1Decode bs, goodChar c :=
    fun c hc => ⟨latin1Decode_range bs c hc, hnul c hc⟩
  have hfields : ∀ row ∈ (csvRows ',' (latin1Decode bs)).1, ∀ g ∈ row, ∀ c ∈ g, goodChar c :=
    @csvRowsAux_chars goodChar ',' (latin1Decode bs) .startRec [] [] hgood
      (by intro c hc; simp at hc) (by intro g hg; simp at hg)
  obtain ⟨k, vals, hvmem, hproc⟩ := parseLoop_mem _ _ _ _ _ hloop t ht
  have hvgood : ∀ g ∈ vals, ∀ c ∈ g, goodChar c :=
    fun g hg => hfields vals (dropToFirstRow_subset hdrop vals hvmem) g hg
  obtain ⟨v, rawDate, rawPayee, rawW, rawD, rawC, rawCom,
    g1, g2, g3, g4, g5, g6, g7, hdate, hpayee, hpne, hcat, hcom, _⟩ :=
    aceProcessRow_ok_inv hproc
  refine ⟨⟨v, parseAceDate_valid g2, hdate⟩, ?_, hpne, ?_, ?_, ?_, ?_, ?_⟩
  · rw [hpayee, pyStrip_idem]
  · rw [hcat, pyStrip_idem]
  · rw [hcom, pyStrip_idem]
  · intro c hc
    rw [hpayee] at hc
    exact hvgood rawPayee (dictGet_mem g3) c (mem_of_mem_pyStrip hc)
  · intro c hc
    rw [hcat] at hc
    rcases dictGetD_mem g6 with h0 | h0
    · subst h0
      have := mem_of_mem_pyStrip hc
      simp at this
    · exact hvgood rawC h0 c (mem_of_mem_pyStrip hc)
  · intro c hc
    rw [hcom] at hc
    rcases dictGetD_mem g7 with h0 | h0
    · subst h0
      have := mem_of_mem_pyStrip hc
      simp at this
    · exact hvgood rawCom h0 c (mem_of_mem_pyStrip hc)

/-- Exporting a list of records that satisfies the parse invariant and
re-parsing the generated bytes succeeds and returns the records with
requantized amounts. -/
theorem generate_reparse {ts : List ParsedTransaction}
    (hne : ts ≠ [])
    (hinv : ∀ t ∈ ts,
      (∃ v, validYMD v ∧ t.date = isoFmt v)
      ∧ pyStrip t.payee = t.payee ∧ t.payee ≠ []
      ∧ pyStrip t.original_category = t.original_category
      ∧ pyStrip t.original_comment = t.original_comment
      ∧ (∀ c ∈ t.payee, goodChar c)
      ∧ (∀ c ∈ t.original_category, goodChar c)
      ∧ (∀ c ∈ t.original_comment, goodChar c)) :
    ∃ bs2, generate (ts.map toExport) = .ok bs2 ∧ aceParse bs2 = .ok (ts.map retx) := by
  have hdates : ∀ x ∈ ts.map toExport, ∃ v, isoParse x.date = some v := by
    intro x hx
    obtain ⟨t, ht, rfl⟩ := List.mem_map.mp hx
    obtain ⟨⟨v, hv, hd⟩, _⟩ := hinv t ht
    refine ⟨v, ?_⟩
    rw [show (toExport t).date = t.date from rfl, hd]
    exact isoParse_isoFmt hv
  obtain ⟨rows, hrows, hrel⟩ := genRowsAux_rel (ts.map toExport) hdates
  have hrel2 := forall₂_and_left (forall₂_map_left hrel) hinv
  have hace : ∀ g ∈ aceExpected, ∀ c ∈ g, goodChar c := by decide
  have hcellgood : ∀ row ∈ (aceExpected :: rows), ∀ g ∈ row, ∀ c ∈ g, goodChar c := by
    intro row hrow
    rcases List.mem_cons.mp hrow with rfl | hrow2
    · exact hace
    · obtain ⟨t, ht, hinvt, v, hv, rfl⟩ := forall₂_mem_right hrel2 row hrow2
      obtain ⟨⟨v0, hv0, hd0⟩, hps, hpne, hcs, hns, hpg, hcg, hng⟩ := hinvt
      intro g hg
      simp only [List.mem_cons] at hg
      rcases hg with rfl | rfl | rfl | rfl | rfl | rfl | rfl | rfl | rfl | hg
      · intro c hc; simp at hc
      · exact dmyFmt_goodChars v
      · exact hpg
      · exact hcg
      · intro c hc; simp at hc
      · exact genW_goodChars _
      · exact genD_goodChars _
      · intro c hc; simp at hc
      · exact hng
      · simp at hg
  have hlt : ∀ c ∈ csvWrite (aceExpected :: rows), c.toNat < 256 := by
    intro c hc
    rcases mem_csvWrite hc with ⟨row, hrow, f, hf, hcf⟩ | rfl | rfl | rfl | rfl
    · exact (hcellgood row hrow f hf c hcf).1
    · decide
    · decide
    · decide
    · decide
  obtain ⟨bs2, henc, hdec, hbytes⟩ := latin1Encode_of_lt hlt
  have hgen : generate (ts.map toExport) = .ok bs2 := by
    unfold generate
    simp only [hrows, henc]
  have hcsv : csvRows ',' (csvWrite (aceExpected :: rows)) = (aceExpected :: rows, none) := by
    apply csvRows_write
    intro row hrow
    refine ⟨?_, ?_, fun g hg c hc => (hcellgood row hrow g hg c hc).2⟩
    · rcases List.mem_cons.mp hrow with rfl | hrow2
      · decide
      · obtain ⟨t, ht, hinvt, v, hv, rfl⟩ := forall₂_mem_right hrel2 row hrow2
        simp
    · rcases List.mem_cons.mp hrow with rfl | hrow2
      · decide
      · obtain ⟨t, ht, hinvt, v, hv, rfl⟩ := forall₂_mem_right hrel2 row hrow2
        simp
  have hsplit : csvWrite (aceExpected :: rows)
      = ("transaction,date,payee,category,status,withdrawal,deposit,total,comment\r").toList
        ++ '\n' :: csvWrite rows := rfl
  have hec : emptyCheck bs2 = false := by
    have hT : csvWrite (aceExpected :: rows)
        = 't' :: (("ransaction,date,payee,category,status,withdrawal,deposit,total,comment\r").toList
          ++ '\n' :: csvWrite rows) := hsplit
    rw [hT] at hbytes
    cases hbytes with
    | cons hb hrest => exact emptyCheck_cons_false (by rw [hb]; decide)
  have hval2 : aceValidate bs2 = [] := by
    unfold aceValidate
    rw [if_neg (by simp [hec] : ¬ (emptyCheck bs2 = true))]
    simp only [hdec, hcsv]
    rw [show aceExpected.map normHeader = aceExpected from by decide, if_pos rfl]
  have h1 : (splitOnC '\n' (csvWrite (aceExpected :: rows))).headD []
      = ("transaction,date,payee,category,status,withdrawal,deposit,total,comment\r").toList := by
    rw [hsplit, splitOnC_append_of (by decide), List.headD_cons]
  have h2 : firstRec ','
      (("transaction,date,payee,category,status,withdrawal,deposit,total,comment\r").toList)
      = .ok aceExpected := by decide
  have hdrop : dropToFirstRow (aceExpected :: rows) = some rows := by
    unfold dropToFirstRow
    rw [if_neg (by decide : ¬(aceExpected = ([] : List Str)))]
  have hloopRel : List.Forall₂
      (fun row t' => row ≠ [] ∧ ∀ k, aceProcessRow aceExpected k row = .ok (some t'))
      rows (ts.map retx) := by
    refine forall₂_flip_map ?_ hrel2
    rintro t row ⟨hinvt, v, hv, rfl⟩
    obtain ⟨⟨v0, hv0, hd0⟩, hps, hpne, hcs, hns, hpg, hcg, hng⟩ := hinvt
    have hveq : v = v0 := by
      have hpv : isoParse (toExport t).date = some v0 := by
        rw [show (toExport t).date = t.date from rfl, hd0]
        exact isoParse_isoFmt hv0
      rw [hv] at hpv
      exact Option.some.inj hpv
    cases hveq
    constructor
    · simp
    · intro k
      have hrp := aceProcessRow_reparse hv0 hps hpne hcs hns t.amount k
      rw [show retx t = (⟨isoFmt v, t.payee, requant t.amount, t.original_category,
        t.original_comment⟩ : ParsedTransaction) from by unfold retx; rw [hd0]]
      exact hrp
  have hrun2 : aceRun (csvWrite (aceExpected :: rows)) = .ok (ts.map retx) := by
    unfold aceRun
    simp only [h1, h2, hcsv, hdrop]
    rw [show aceExpected.map normHeader = aceExpected from by decide]
    exact parseLoop_reparse _ hloopRel 2
  have hparse2 : aceParse bs2 = .ok (ts.map retx) := by
    unfold aceParse
    simp only [hval2, hdec, hrun2]
    rw [if_neg (map_ne_nil hne)]
  exact ⟨bs2, hgen, hparse2⟩

theorem forall₂_self_map {α β : Type} {R : α → β → Prop} {f : α → β}
    (h : ∀ a, R a (f a)) : ∀ (l : List α), List.Forall₂ R l (l.map f)
  | [] => .nil
  | a :: t => .cons (h a) (forall₂_self_map h t)

/-! The claims. -/

/-- C1: Round-trip stability: for every byte buffer that the AceMoney parser
parses successfully into a (necessarily non-empty) record list, feeding those
records to the generator and re-parsing the generated bytes with the AceMoney
parser succeeds and yields the same list of (date, payee, amount) triples,
with amounts equal within 1/200 (the two-decimal formatting quantum). -/
theorem claim_C1_roundtrip {bs : List Byte} {ts : List ParsedTransaction}
    (h : aceParse bs = .ok ts) :
    ∃ (bs2 : List Byte) (ts2 : List ParsedTransaction),
      generate (ts.map toExport) = .ok bs2 ∧ aceParse bs2 = .ok ts2
      ∧ List.Forall₂ (fun (t t2 : ParsedTransaction) => t2.date = t.date ∧ t2.payee = t.payee
          ∧ |t.amount - t2.amount| ≤ 1 / 200) ts ts2 := by
  obtain ⟨hne, hinv⟩ := aceParse_ok_inv h
  obtain ⟨bs2, hgen, hparse2⟩ := generate_reparse hne hinv
  exact ⟨bs2, ts.map retx, hgen, hparse2,
    forall₂_self_map (fun t => ⟨rfl, rfl, requant_bound t.amount⟩) ts⟩

/-- Witness for C1 at the concrete AceMoney sample file. -/
theorem claim_C1_roundtrip_witness :
    ∃ (bs2 : List Byte) (ts2 : List ParsedTransaction),
      generate (([⟨("2023-07-21").toList, ("DSB NETBUTIK").toList, -(mkRat 1600 10), [], []⟩]
          : List ParsedTransaction).map toExport) = .ok bs2
      ∧ aceParse bs2 = .ok ts2
      ∧ List.Forall₂ (fun (t t2 : ParsedTransaction) => t2.date = t.date ∧ t2.payee = t.payee
          ∧ |t.amount - t2.amount| ≤ 1 / 200)
          [⟨("2023-07-21").toList, ("DSB NETBUTIK").toList, -(mkRat 1600 10), [], []⟩] ts2 :=
  claim_C1_roundtrip
    (show aceParse (utf8Encode ("transaction,date,payee,category,status,withdrawal,deposit,total,comment\n,21.07.2023,DSB NETBUTIK,,,160.0,,,").toList)
      = .ok [⟨("2023-07-21").toList, ("DSB NETBUTIK").toList, -(mkRat 1600 10), [], []⟩] by decide)

/-- C2 counterexample: an AceMoney row whose withdrawal column holds the
negative text `-160.0` parses to a record with POSITIVE amount `160`, so a
withdrawal-style source row does not always yield a negative amount. -/
theorem claim_C2_counterexample :
    aceParse (utf8Encode ("transaction,date,payee,category,status,withdrawal,deposit,total,comment\n,21.07.2023,DSB NETBUTIK,,,-160.0,,,").toList)
      = .ok [⟨("2023-07-21").toList, ("DSB NETBUTIK").toList, mkRat 1600 10, [], []⟩]
    ∧ (0 : ℚ) < mkRat 1600 10 := by
  exact ⟨by decide, by decide⟩

/-- C2 amended: the parsers map source amounts to record amounts by fixed
arithmetic, not by sign guarantee: an AceMoney record built from a populated
withdrawal cell has amount equal to MINUS the parsed cell value, one built
from a populated deposit cell (withdrawal empty) has amount equal to the
parsed value, and a Danske Bank record keeps the parsed locale-converted
`Beløb` value unchanged; the sign convention therefore holds exactly when the
source text denotes a value of the expected sign. -/
theorem claim_C2_amended :
    (∀ (fns : List Str) (n : Nat) (vals : List Str) (t : ParsedTransaction) (rawW : Str) (x : ℚ),
        aceProcessRow fns n vals = .ok (some t) →
        dictGet fns vals (("withdrawal").toList) = some (some rawW) →
        floatVal (pyStrip rawW) = some x →
        pyStrip rawW ≠ [] →
        t.amount = -x)
    ∧ (∀ (fns : List Str) (n : Nat) (vals : List Str) (t : ParsedTransaction) (rawD : Str) (x : ℚ),
        aceProcessRow fns n vals = .ok (some t) →
        dictGet fns vals (("withdrawal").toList) = some (some (([]) : Str)) →
        dictGet fns vals (("deposit").toList) = some (some rawD) →
        floatVal (pyStrip rawD) = some x →
        t.amount = x)
    ∧ (∀ (fns : List Str) (ac : Str) (n : Nat) (vals : List Str) (t : ParsedTransaction)
          (rawA : Str) (x : ℚ),
        danskeProcessRow fns ac n vals = .ok (some t) →
        dictGet fns vals ac = some (some rawA) →
        floatVal (danskeConv (stripQuotes (pyStrip rawA))) = some x →
        t.amount = x) := by
  refine ⟨?_, ?_, ?_⟩
  · intro fns n vals t rawW x hok hw hf hne
    obtain ⟨v, rawDate, rawPayee, rawW', rawD', rawC, rawCom,
      g1, g2, g3, g4, g5, g6, g7, hdate, hpayee, hpne, hcat, hcom, hamt⟩ :=
      aceProcessRow_ok_inv hok
    rw [g4] at hw
    cases Option.some.inj (Option.some.inj hw)
    rcases hamt with ⟨_, _, x', hf', hx⟩ | ⟨heq, _, _⟩
    · rw [hf] at hf'
      cases Option.some.inj hf'
      exact hx
    · exact absurd heq hne
  · intro fns n vals t rawD x hok hw hd hf
    obtain ⟨v, rawDate, rawPayee, rawW', rawD', rawC, rawCom,
      g1, g2, g3, g4, g5, g6, g7, hdate, hpayee, hpne, hcat, hcom, hamt⟩ :=
      aceProcessRow_ok_inv hok
    rw [g4] at hw
    cases Option.some.inj (Option.some.inj hw)
    rw [g5] at hd
    cases Option.some.inj (Option.some.inj hd)
    rcases hamt with ⟨hne', _, _⟩ | ⟨_, _, x', hf', hx⟩
    · exact absurd rfl hne'
    · rw [hf] at hf'
      cases Option.some.inj hf'
      exact hx
  · intro fns ac n vals t rawA x hok ha hf
    obtain ⟨v, rawDato, rawTekst, rawAmt, x', g1, g2, g3, g4, g5, g6, ht⟩ :=
      danskeProcessRow_ok_inv hok
    rw [g4] at ha
    cases Option.some.inj (Option.some.inj ha)
    rw [hf] at g6
    cases Option.some.inj g6
    rw [ht]

/-- Witness for C2 amended at a concrete withdrawal row. -/
theorem claim_C2_amended_witness :
    (⟨("2023-07-21").toList, ("DSB NETBUTIK").toList, -(mkRat 1600 10), [], []⟩
      : ParsedTransaction).amount = -(mkRat 1600 10) :=
  claim_C2_amended.1 aceExpected 2
    [[], ("21.07.2023").toList, ("DSB NETBUTIK").toList, [], [], ("160.0").toList, [], [], []]
    ⟨("2023-07-21").toList, ("DSB NETBUTIK").toList, -(mkRat 1600 10), [], []⟩
    (("160.0").toList) (mkRat 1600 10)
    (by decide) (by decide) (by decide) (by decide)

/-- C3 counterexample: a data row whose withdrawal and deposit columns are
both empty is NOT always silently skipped: when its payee cell is also empty
the whole parse fails with `Row 3: Missing payee`, because the payee check
runs before the amount-columns check. -/
theorem claim_C3_counterexample :
    aceParse (utf8Encode ("transaction,date,payee,category,status,withdrawal,deposit,total,comment\n,21.07.2023,DSB NETBUTIK,,,160.0,,,\n,22.07.2023,,,,,,,").toList)
      = .error (rowMsg 3 missingPayeeMsg) := by
  decide

/-- C3 amended: for a data row whose date parses and whose payee is non-empty,
both-empty amount columns make the row convert to a silent skip (`ok none`)
and the row loop continue with no record emitted, while both-populated amount
columns abort the whole loop with the `Row n: Both withdrawal and deposit have
values` error; in neither case is a record emitted for the row. -/
theorem claim_C3_amended :
    ∀ (fns vals : List Str) (rawDate rawPayee rawW rawD : Str) (v : YMD) (n : Nat)
      (rest : List (List Str)) (e : Option Str),
      dictGet fns vals (("date").toList) = some (some rawDate) →
      parseAceDate (pyStrip rawDate) = some v →
      dictGet fns vals (("payee").toList) = some (some rawPayee) →
      pyStrip rawPayee ≠ [] →
      dictGet fns vals (("withdrawal").toList) = some (some rawW) →
      dictGet fns vals (("deposit").toList) = some (some rawD) →
      (pyStrip rawW = [] → pyStrip rawD = [] →
          aceProcessRow fns n vals = .ok none
          ∧ parseLoop (aceProcessRow fns) n (vals :: rest) e
              = parseLoop (aceProcessRow fns) (n + 1) rest e)
      ∧ (pyStrip rawW ≠ [] → pyStrip rawD ≠ [] →
          parseLoop (aceProcessRow fns) n (vals :: rest) e = .error (rowMsg n bothColsMsg)) := by
  intro fns vals rawDate rawPayee rawW rawD v n rest e h1 h2 h3 hp h4 h5
  have hv : vals ≠ [] := by
    intro he
    subst he
    have := dictGet_mem h3
    simp at this
  constructor
  · intro hw hd
    have hskip := aceProcessRow_skip n h1 h2 h3 hp h4 h5 hw hd
    exact ⟨hskip, parseLoop_skip rest e hv hskip⟩
  · intro hw hd
    exact parseLoop_err rest e hv (aceProcessRow_both n h1 h2 h3 hp h4 h5 hw hd)

/-- Witness for C3 amended at a concrete both-empty row. -/
theorem claim_C3_amended_witness :
    aceProcessRow aceExpected 2
      [[], ("21.07.2023").toList, ("A").toList, [], [], [], [], [], []] = .ok none
    ∧ parseLoop (aceProcessRow aceExpected) 2
        ([[], ("21.07.2023").toList, ("A").toList, [], [], [], [], [], []] :: []) none
      = parseLoop (aceProcessRow aceExpected) 3 [] none :=
  (claim_C3_amended aceExpected
      [[], ("21.07.2023").toList, ("A").toList, [], [], [], [], [], []]
      (("21.07.2023").toList) (("A").toList) [] [] ⟨2023, 7, 21⟩ 2 [] none
      (by decide) (by decide) (by decide) (by decide) (by decide) (by decide)).1
    (by decide) (by decide)

/-- C4: the Danske Bank locale decimal conversion strips thousands periods and
turns the decimal comma into a point, so `1.234,56` reads as 1234.56 and
`-41,80` as -41.80; and the concrete quoted semicolon row parses to the record
(date `2024-11-25`, payee `Netto ScanNGo`, amount -41.80). -/
theorem claim_C4_danske_locale :
    floatVal (danskeConv (("1.234,56").toList)) = some (mkRat 123456 100)
    ∧ floatVal (danskeConv (("-41,80").toList)) = some (mkRat (-4180) 100)
    ∧ danskeParse (utf8Encode ("\"Dato\";\"Tekst\";\"Beløb\";\"Saldo\";\"Status\";\"Afstemt\"\n\"25.11.2024\";\"Netto ScanNGo\";\"-41,80\";\"98.302,29\";\"Udført\";\"Nej\"").toList)
      = .ok [⟨("2024-11-25").toList, ("Netto ScanNGo").toList, mkRat (-4180) 100, [], []⟩] := by
  exact ⟨by decide, by decide, by decide⟩

/-- C5: the concrete AceMoney sample (header plus one data row with
withdrawal `160.0`) parses to exactly one record with date `2023-07-21`,
payee `DSB NETBUTIK` and amount -160.0. -/
theorem claim_C5_acemoney_scenario :
    aceParse (utf8Encode ("transaction,date,payee,category,status,withdrawal,deposit,total,comment\n,21.07.2023,DSB NETBUTIK,,,160.0,,,").toList)
      = .ok [⟨("2023-07-21").toList, ("DSB NETBUTIK").toList, -(mkRat 1600 10), [], []⟩] := by
  decide

/-- C6: a zero-length or whitespace-only byte buffer makes format detection
fail with the `File is empty` message, which is distinct from the
undetectable-format message. -/
theorem claim_C6_empty_detection (bs : List Byte)
    (h : bs = [] ∨ ∀ b ∈ bs,
      b.val = 9 ∨ b.val = 10 ∨ b.val = 11 ∨ b.val = 12 ∨ b.val = 13 ∨ b.val = 32) :
    detectFmt bs = .error fileEmptyMsg ∧ fileEmptyMsg ≠ undetectableMsg := by
  have he : emptyCheck bs = true := by
    rcases h with rfl | h
    · rfl
    · unfold emptyCheck
      rw [List.all_eq_true]
      exact fun b hb => decide_eq_true (h b hb)
  constructor
  · unfold detectFmt
    rw [if_pos he]
  · decide

/-- Witness for C6 at the empty buffer. -/
theorem claim_C6_empty_detection_witness :
    detectFmt [] = .error fileEmptyMsg ∧ fileEmptyMsg ≠ undetectableMsg :=
  claim_C6_empty_detection [] (Or.inl rfl)

/-- C7 counterexample: on a non-empty comma-delimited buffer matching neither
format the detector fails with the one fixed undetectable-format message,
which mentions neither the headers found in the input (`hello`) nor any
found-headers diagnostic at all. -/
theorem claim_C7_counterexample :
    detectFmt (utf8Encode ("hello,world").toList) = .error undetectableMsg
    ∧ hasInfix undetectableMsg (("hello").toList) = false
    ∧ hasInfix undetectableMsg (("Found").toList) = false := by
  exact ⟨by decide, by decide, by decide⟩

/-- C7 amended: for every non-empty buffer on which the Danske header check
(over both decodings) and the AceMoney header check all come back negative,
detection fails with exactly the fixed `undetectableMsg`; no expected-vs-found
diagnostics are ever attached. -/
theorem claim_C7_amended (bs : List Byte)
    (h0 : emptyCheck bs = false)
    (h1 : danskeHdrCheck (latin1Decode bs) = .ok false)
    (h2 : ∀ t, utf8Decode bs = some t → danskeHdrCheck t = .ok false)
    (h3 : aceHdrCheck (latin1Decode bs) = .ok false) :
    detectFmt bs = .error undetectableMsg := by
  unfold detectFmt
  rw [if_neg (by simp [h0])]
  cases hu : utf8Decode bs with
  | none => simp only [h1, detectAce, h3]
  | some t => simp only [h2 t hu, h1, detectAce, h3]

/-- Witness for C7 amended at a concrete undetectable buffer. -/
theorem claim_C7_amended_witness :
    detectFmt (utf8Encode ("hello").toList) = .error undetectableMsg :=
  claim_C7_amended (utf8Encode ("hello").toList) (by decide) (by decide)
    (fun t ht => by
      have he : utf8Decode (utf8Encode (("hello").toList)) = some (("hello").toList) := by
        decide
      rw [he] at ht
      cases Option.some.inj ht
      decide)
    (by decide)

/-- C8: for either parser, an input whose validation passes but whose row loop
returns zero records fails with the `No transactions found in CSV file` error,
which is distinct from the empty-file message. -/
theorem claim_C8_no_transactions :
    (∀ bs : List Byte, aceValidate bs = [] → aceRun (latin1Decode bs) = .ok [] →
        aceParse bs = .error noTxMsg)
    ∧ (∀ bs : List Byte, danskeValidate bs = [] → danskeRun (danskeDecode bs) = .ok [] →
        danskeParse bs = .error noTxMsg)
    ∧ noTxMsg ≠ fileEmptyMsg := by
  refine ⟨?_, ?_, by decide⟩
  · intro bs h1 h2
    unfold aceParse
    simp only [h1, h2]
    simp
  · intro bs h1 h2
    unfold danskeParse
    simp only [h1, h2]
    simp

/-- Witness for C8 at header-only files of both formats. -/
theorem claim_C8_no_transactions_witness :
    aceParse (utf8Encode ("transaction,date,payee,category,status,withdrawal,deposit,total,comment").toList)
      = .error noTxMsg
    ∧ danskeParse (utf8Encode ("Dato;Tekst;Beløb;Saldo;Status;Afstemt").toList)
      = .error noTxMsg :=
  ⟨claim_C8_no_transactions.1 _ (by decide) (by decide),
   claim_C8_no_transactions.2.1 _ (by decide) (by decide)⟩

/-- C9 counterexample: a record that is well-formed in the claim's sense
(valid `YYYY-MM-DD` date, a payee string, a numeric amount) still makes
`generate` fail when the payee contains the non-latin-1 character `€`, so the
generator is not total on well-formed input. -/
theorem claim_C9_counterexample :
    generate [⟨("2024-01-01").toList, ("€").toList, 1, [], []⟩] = .error encodeErrMsg
    ∧ isoParse (("2024-01-01").toList) = some ⟨2024, 1, 1⟩ := by
  exact ⟨by decide, by decide⟩

/-- C9 amended: the generator succeeds on every record list whose dates parse
as `YYYY-MM-DD` and whose payee, category and note are latin-1 encodable; each
record becomes the nine-cell row with the date as `DD.MM.YYYY`, a negative
amount as a two-decimal withdrawal magnitude with blank deposit, a
non-negative amount as a two-decimal deposit with blank withdrawal, and the
whole buffer is the latin-1 encoding of the written csv. -/
theorem claim_C9_amended (txns : List ExportTx)
    (hd : ∀ t ∈ txns, ∃ v, isoParse t.date = some v)
    (hc : ∀ t ∈ txns, (∀ c ∈ t.payee, c.toNat < 256) ∧ (∀ c ∈ t.category, c.toNat < 256)
      ∧ (∀ c ∈ t.note, c.toNat < 256)) :
    (∀ a : ℚ, a < 0 → genW a = fmt2 (-a) ∧ genD a = [])
    ∧ (∀ a : ℚ, ¬ a < 0 → genW a = [] ∧ genD a = fmt2 a)
    ∧ ∃ rows bs, genRowsAux txns = .ok rows
      ∧ List.Forall₂ (fun (t : ExportTx) cells => ∃ v, isoParse t.date = some v
          ∧ cells = [[], dmyFmt v, t.payee, t.category, [], genW t.amount, genD t.amount, [],
              t.note]) txns rows
      ∧ generate txns = .ok bs
      ∧ latin1Encode (csvWrite (aceExpected :: rows)) = some bs := by
  refine ⟨?_, ?_, ?_⟩
  · intro a ha
    exact ⟨by rw [genW, if_pos ha], by rw [genD, if_pos ha]⟩
  · intro a ha
    exact ⟨by rw [genW, if_neg ha], by rw [genD, if_neg ha]⟩
  obtain ⟨rows, hrows, hrel⟩ := genRowsAux_rel txns hd
  have hcell : ∀ row ∈ (aceExpected :: rows), ∀ g ∈ row, ∀ c ∈ g, c.toNat < 256 := by
    intro row hrow
    rcases List.mem_cons.mp hrow with rfl | hrow2
    · exact by decide
    · obtain ⟨t, ht, v, hv, rfl⟩ := forall₂_mem_right hrel row hrow2
      obtain ⟨hp, hcat, hnote⟩ := hc t ht
      intro g hg
      simp only [List.mem_cons] at hg
      rcases hg with rfl | rfl | rfl | rfl | rfl | rfl | rfl | rfl | rfl | hg
      · intro c hc2; simp at hc2
      · intro c hc2; exact (dmyFmt_goodChars v c hc2).1
      · exact hp
      · exact hcat
      · intro c hc2; simp at hc2
      · intro c hc2; exact (genW_goodChars _ c hc2).1
      · intro c hc2; exact (genD_goodChars _ c hc2).1
      · intro c hc2; simp at hc2
      · exact hnote
      · simp at hg
  have hlt : ∀ c ∈ csvWrite (aceExpected :: rows), c.toNat < 256 := by
    intro c hcm
    rcases mem_csvWrite hcm with ⟨row, hrow, f, hf, hcf⟩ | rfl | rfl | rfl | rfl
    · exact hcell row hrow f hf c hcf
    · decide
    · decide
    · decide
    · decide
  obtain ⟨bs, henc, _, _⟩ := latin1Encode_of_lt hlt
  refine ⟨rows, bs, hrows, hrel, ?_, henc⟩
  unfold generate
  simp only [hrows, henc]

/-- Witness for C9 amended at a concrete one-record list. -/
theorem claim_C9_amended_witness :
    (∀ a : ℚ, a < 0 → genW a = fmt2 (-a) ∧ genD a = [])
    ∧ (∀ a : ℚ, ¬ a < 0 → genW a = [] ∧ genD a = fmt2 a)
    ∧ ∃ rows bs,
      genRowsAux [(⟨("2024-01-01").toList, ("A").toList, mkRat (-15) 10, [], []⟩ : ExportTx)]
        = .ok rows
      ∧ List.Forall₂ (fun (t : ExportTx) cells => ∃ v, isoParse t.date = some v
          ∧ cells = [[], dmyFmt v, t.payee, t.category, [], genW t.amount, genD t.amount, [],
              t.note])
          [(⟨("2024-01-01").toList, ("A").toList, mkRat (-15) 10, [], []⟩ : ExportTx)] rows
      ∧ generate [(⟨("2024-01-01").toList, ("A").toList, mkRat (-15) 10, [], []⟩ : ExportTx)]
          = .ok bs
      ∧ latin1Encode (csvWrite (aceExpected :: rows)) = some bs :=
  claim_C9_amended [⟨("2024-01-01").toList, ("A").toList, mkRat (-15) 10, [], []⟩]
    (fun t ht => by
      rw [List.mem_singleton] at ht
      subst ht
      exact ⟨⟨2024, 1, 1⟩, by decide⟩)
    (fun t ht => by
      rw [List.mem_singleton] at ht
      subst ht
      exact ⟨by decide, by decide, by decide⟩)

/-- C10 (implicit): there is an input (semicolon header `Dato;Tekst;Saldo;
Status`, no `Bel...` column) on which detection succeeds with the Danske Bank
tag and validation returns no errors, yet parsing fails with the
`Could not find amount column` error, which carries no row marker. -/
theorem claim_C10_detect_without_amount :
    detectFmt (utf8Encode ("Dato;Tekst;Saldo;Status\n01.01.2024;X;Ja;Nej").toList)
      = .ok (("danske_bank").toList)
    ∧ danskeValidate (utf8Encode ("Dato;Tekst;Saldo;Status\n01.01.2024;X;Ja;Nej").toList) = []
    ∧ danskeParse (utf8Encode ("Dato;Tekst;Saldo;Status\n01.01.2024;X;Ja;Nej").toList)
      = .error amountColMsg
    ∧ hasInfix amountColMsg (("Row").toList) = false := by
  exact ⟨by decide, by decide, by decide, by decide⟩
